import Mathlib

/-!
Verification of the lot-based position reconciliation engine.

Shallow embedding of the core bookkeeping logic of the portfolio tracker:

* `src/src/shared/financial_utils.py` — `_get_cpi_value_for_date`
* `src/src/application/transaction_service.py` — `TransactionService`
  (`_get_exchange_rate`, `record_buy`, `record_sell`)
* `src/src/application/reconciliation_service.py` — `ExchangeRateLoader.get_rate`,
  `_load_processed_ids` / `_load_and_filter_new_transactions`,
  `_apply_sell_transaction`, `reconcile_portfolio`
* `src/portfolio.py` — the nominal-return guard of `Portfolio.log_closed_trade`
* `src/src/domain/portfolio.py` — the unguarded division of `Portfolio.show_closed_trades`

Python floats are modelled as exact rationals (`ℚ`); the float-specific
non-finite results (inf / NaN from a division by zero) are modelled by `Option ℚ`
where that distinction matters.  Pandas timestamps are modelled by `Date`:
field `t` is the linear time coordinate (used for ordering and nearest-date
distance), fields `year` and `month` are the calendar components that
`_get_cpi_value_for_date` reads to count months.
-/

/-- A pandas `Timestamp`: `t` is the linear time value (e.g. days since an
epoch), `year`/`month` the calendar fields read by the CPI extrapolation. -/
structure Date where
  t : Int
  year : Int
  month : Int
deriving DecidableEq, Repr

/-- One row of a rate/index CSV: a `(date, value)` point. -/
structure RatePoint where
  date : Date
  value : ℚ
deriving DecidableEq, Repr

/-- Embeds `sort_values("date")` on a rate/index DataFrame (stable sort by date). -/
def sortPoints (pts : List RatePoint) : List RatePoint :=
  List.insertionSort (fun a b : RatePoint => a.date.t ≤ b.date.t) pts

/-- Absolute time distance between a point and the lookup date. -/
def distTo (d : Date) (p : RatePoint) : Int := |p.date.t - d.t|

/-- Embeds `pd.merge_asof(..., direction="nearest")` with a single left row: the point
whose date is closest in absolute distance, ties broken toward the earlier
point of the (sorted) series. -/
def nearestPoint (d : Date) : List RatePoint → Option RatePoint
  | [] => none
  | p :: ps =>
    some (ps.foldl (fun best q => if distTo d q < distTo d best then q else best) p)

/-- The two exchange-rate series loaded from CSV (`dolar_mep.csv`,
`dolar_ccl.csv`). -/
structure RateTables where
  dolar_mep : List RatePoint
  dolar_ccl : List RatePoint
deriving DecidableEq, Repr

/-- Embeds `ExchangeRateLoader.get_rate` (reconciliation_service.py) and
`TransactionService._get_exchange_rate` (transaction_service.py): pick the CCL
series for CEDEARs and the MEP series otherwise, return `None` on an empty
series, else the nearest-date value. -/
def get_rate (rt : RateTables) (date : Date) (asset_type : String) : Option ℚ :=
  let rate_df := if asset_type = "CEDEAR" then rt.dolar_ccl else rt.dolar_mep
  match nearestPoint date (sortPoints rate_df) with
  | none => none
  | some p => some p.value

/-- The month count `(target.year - last.year) * 12 + (target.month - last.month)`
used by the CPI forward extrapolation. -/
def monthsDiff (last target : Date) : Int :=
  (target.year - last.year) * 12 + (target.month - last.month)

/-- Embeds `Series.pct_change().dropna()`: the month-over-month growth rates of a
value column. -/
def pctChanges : List ℚ → List ℚ
  | [] => []
  | [_] => []
  | a :: b :: rest => (b / a - 1) :: pctChanges (b :: rest)

/-- Embeds `Series.mean()`. -/
def listMean (xs : List ℚ) : ℚ := xs.sum / (xs.length : ℚ)

/-- The configured fallback monthly inflation rate (0.2% per month). -/
def FALLBACK_MONTHLY_INFLATION_RATE : ℚ := 1 / 500

/-- Embeds `_get_cpi_value_for_date` (financial_utils.py): empty series gives `None`;
a date at or before the last known point is resolved by nearest-date lookup;
a later date is extrapolated from the last value compounded by the mean of the
trailing six month-over-month growth rates (fallback 0.002 with fewer than 7
points) over the calendar-month difference. -/
def get_cpi_value_for_date (target : Date) (cpi : List RatePoint) : Option ℚ :=
  let sorted := sortPoints cpi
  match sorted.getLast? with
  | none => none
  | some lastP =>
    if target.t ≤ lastP.date.t then
      match nearestPoint target sorted with
      | none => none
      | some p => some p.value
    else
      let avg_monthly_inflation :=
        if 7 ≤ sorted.length then
          listMean (pctChanges ((sorted.drop (sorted.length - 7)).map (fun q => q.value)))
        else FALLBACK_MONTHLY_INFLATION_RATE
      some (lastP.value * (1 + avg_monthly_inflation) ^ monthsDiff lastP.date target)

/-! ## Transaction service (src/src/application/transaction_service.py) -/

/-- The constant `config.OPTION_LOT_SIZE`. -/
def OPTION_LOT_SIZE : ℚ := 100

/-- The equity-like instrument categories of the buy/sell dispatch. -/
def equityCategories : List String :=
  ["ACCION", "CEDEAR", "MERVAL", "GENERAL", "LIDER", "PRIVATE_TITLE"]

/-- The fixed-income instrument categories of the buy/sell dispatch. -/
def bondCategories : List String := ["RF", "BOND", "LETTER", "PUBLIC_TITLE"]

/-- Errors raised by `record_buy` / `record_sell` (`ValueError`s in the
source, distinguished here by their message). -/
inductive LedgerError where
  | unknownAssetType (category : String)
  | rateUnavailable (date : Date)
  | insufficientQuantity (ticker : String)
deriving DecidableEq, Repr

/-- The shared `base_cost` / `gross_revenue` dispatch of `record_buy` and
`record_sell`: `quantity * price` for equity-like and fixed-income categories,
scaled by the option lot size for options, `ValueError` otherwise. -/
def grossAmount (instrument_category : String) (quantity price : ℚ) :
    Except LedgerError ℚ :=
  if instrument_category ∈ equityCategories then .ok (quantity * price)
  else if instrument_category ∈ bondCategories then .ok (quantity * price)
  else if instrument_category = "OPTION" then .ok (quantity * price * OPTION_LOT_SIZE)
  else .error (.unknownAssetType instrument_category)

/-- Python truthiness of an optional float rate: `None` and `0.0` are falsy. -/
def truthyRate (r : Option ℚ) : Option ℚ :=
  match r with
  | none => none
  | some x => if x = 0 then none else some x

/-- The `TransactionData` dict handed to `record_buy` / `record_sell`. -/
structure TransactionData where
  date : Date
  ticker : String
  asset_type : String
  instrument_type : Option String
  price : ℚ
  quantity : ℚ
  currency : String
  market_fees : ℚ
  broker_fees : ℚ
  taxes : ℚ
  expiration_date : Option Date
  broker_transaction_id : Option String
deriving DecidableEq, Repr

/-- Python `str.upper()` (character-wise upper-casing). -/
def pyUpper (s : String) : String := String.mk (s.data.map Char.toUpper)

/-- Computes `details.get("instrument_type", asset_type).upper()` where `asset_type`
was already uppercased. -/
def instrumentCategory (details : TransactionData) : String :=
  pyUpper (details.instrument_type.getD (pyUpper details.asset_type))

/-- A row of `open_positions` (the fields the engine reads). -/
structure Lot where
  purchase_date : Date
  ticker : String
  quantity : ℚ
  total_cost_ars : ℚ
  total_cost_usd : ℚ
  asset_type : String
  expiration_date : Option Date
  broker_transaction_id : Option String
deriving DecidableEq, Repr

/-- A row of `closed_trades`. -/
structure ClosedTrade where
  ticker : String
  quantity : ℚ
  buy_date : Date
  sell_date : Date
  asset_type : String
  total_cost_ars : ℚ
  total_cost_usd : ℚ
  total_revenue_ars : ℚ
  total_revenue_usd : ℚ
  buy_broker_transaction_id : Option String
  sell_broker_transaction_id : Option String
deriving DecidableEq, Repr

/-- The portfolio snapshot held by `Portfolio` and persisted after each call. -/
structure PortfolioState where
  open_positions : List Lot
  closed_trades : List ClosedTrade
deriving DecidableEq, Repr

/-- The cost computation of `record_buy`: base cost plus fees in the
transaction currency, then the ARS/USD split via the (truthy) exchange rate. -/
def buyCosts (rt : RateTables) (details : TransactionData) :
    Except LedgerError (ℚ × ℚ) :=
  match grossAmount (instrumentCategory details) details.quantity details.price with
  | .error e => .error e
  | .ok base_cost =>
    let total_fees := details.market_fees + details.broker_fees + details.taxes
    let cost := base_cost + total_fees
    match truthyRate (get_rate rt details.date (pyUpper details.asset_type)) with
    | none => .error (.rateUnavailable details.date)
    | some rate =>
      .ok (if details.currency = "ARS" then (cost, cost / rate) else (cost * rate, cost))

/-- The new open-position row appended by `record_buy`. -/
def mkLot (details : TransactionData) (cost_ars cost_usd : ℚ) : Lot :=
  { purchase_date := details.date
    ticker := details.ticker
    quantity := details.quantity
    total_cost_ars := cost_ars
    total_cost_usd := cost_usd
    asset_type := details.instrument_type.getD (pyUpper details.asset_type)
    expiration_date := details.expiration_date
    broker_transaction_id := details.broker_transaction_id }

/-- Embeds `TransactionService.record_buy`: compute the dual-currency cost and append
one open lot; any raised `ValueError` leaves the portfolio untouched. -/
def record_buy (rt : RateTables) (st : PortfolioState) (details : TransactionData) :
    Except LedgerError PortfolioState :=
  match buyCosts rt details with
  | .error e => .error e
  | .ok (cost_ars, cost_usd) =>
    .ok { st with open_positions := st.open_positions ++ [mkLot details cost_ars cost_usd] }

/-- Date order on lots, as used by `sort_values(by="purchase_date")`. -/
def lotDateLe (a b : Lot) : Prop := a.purchase_date.t ≤ b.purchase_date.t

instance : DecidableRel lotDateLe := fun a b =>
  inferInstanceAs (Decidable (a.purchase_date.t ≤ b.purchase_date.t))

instance : IsTotal Lot lotDateLe :=
  ⟨fun a b => Int.le_total a.purchase_date.t b.purchase_date.t⟩

instance : IsTrans Lot lotDateLe := ⟨fun _ _ _ hab hbc => le_trans hab hbc⟩

/-- Embeds `sort_values(by="purchase_date")` on the matching lots. -/
def sortLotsByDate (lots : List Lot) : List Lot := List.insertionSort lotDateLe lots

/-- Sum of the `quantity` column. -/
def sumQuantities (lots : List Lot) : ℚ := (lots.map (fun l => l.quantity)).sum

/-- The FIFO consumption loop of `record_sell`: walk the date-sorted matching
lots; stop once the quantity still to sell is `≤ 0`; take
`min(lot.quantity, remaining)` from each lot, emit a proportional
`ClosedTrade`, and shrink the lot's quantity and both cost fields by the
consumed slice. Returns the new trades and the updated matching lots. -/
def consumeLots (sell_date : Date) (sell_quantity revenue_ars revenue_usd : ℚ)
    (sell_id : Option String) : ℚ → List Lot → List ClosedTrade × List Lot
  | _, [] => ([], [])
  | quantity_to_sell, lot :: rest =>
    if quantity_to_sell ≤ 0 then ([], lot :: rest)
    else
      let qty_from_lot := min lot.quantity quantity_to_sell
      let proportion := qty_from_lot / lot.quantity
      let ct : ClosedTrade :=
        { ticker := lot.ticker
          quantity := qty_from_lot
          buy_date := lot.purchase_date
          sell_date := sell_date
          asset_type := lot.asset_type
          total_cost_ars := lot.total_cost_ars * proportion
          total_cost_usd := lot.total_cost_usd * proportion
          total_revenue_ars := revenue_ars * (qty_from_lot / sell_quantity)
          total_revenue_usd := revenue_usd * (qty_from_lot / sell_quantity)
          buy_broker_transaction_id := lot.broker_transaction_id
          sell_broker_transaction_id := sell_id }
      let updated_lot : Lot :=
        { lot with
          quantity := lot.quantity - qty_from_lot
          total_cost_ars := lot.total_cost_ars - ct.total_cost_ars
          total_cost_usd := lot.total_cost_usd - ct.total_cost_usd }
      let res := consumeLots sell_date sell_quantity revenue_ars revenue_usd sell_id
        (quantity_to_sell - qty_from_lot) rest
      (ct :: res.1, updated_lot :: res.2)

/-- The epsilon of the post-sell filter `open_lots["quantity"] > 0.001`. -/
def dustThreshold : ℚ := 1 / 1000

/-- Keep predicate of the post-sell dust filter. -/
def keepLot (l : Lot) : Bool := decide (dustThreshold < l.quantity)

/-- Embeds `TransactionService.record_sell` up to (but not including) the final dust
filter: the quantity-sufficiency check, the rate lookup (Python-truthy), the
revenue computation and currency split, and the FIFO walk. Returns the new
`ClosedTrade`s and the full open-position list after consumption.

The source mutates the matching rows of the `open_positions` DataFrame in
place, so the surviving rows keep their original row order; here the updated
matching lots are listed after the non-matching ones. Every consumer of the
resulting state (sums, id sets, ticker filters followed by a date sort) is
insensitive to this ordering. -/
def record_sell_core (rt : RateTables) (st : PortfolioState)
    (details : TransactionData) :
    Except LedgerError (List ClosedTrade × List Lot) :=
  let matching_lots :=
    sortLotsByDate (st.open_positions.filter (fun l => l.ticker == details.ticker))
  if sumQuantities matching_lots < details.quantity then
    .error (.insufficientQuantity details.ticker)
  else
    match truthyRate (get_rate rt details.date details.asset_type) with
    | none => .error (.rateUnavailable details.date)
    | some rate =>
      match grossAmount (instrumentCategory details) details.quantity details.price with
      | .error e => .error e
      | .ok gross_revenue =>
        let total_fees := details.market_fees + details.broker_fees + details.taxes
        let revenue := gross_revenue - total_fees
        let rev := if details.currency = "ARS" then (revenue, revenue / rate)
          else (revenue * rate, revenue)
        let res := consumeLots details.date details.quantity rev.1 rev.2
          details.broker_transaction_id details.quantity matching_lots
        .ok (res.1,
          st.open_positions.filter (fun l => !(l.ticker == details.ticker)) ++ res.2)

/-- Embeds `TransactionService.record_sell`: the core walk followed by the dust
filter `quantity > 0.001` over the whole open-position table, with the new
trades appended to the closed-trade table. -/
def record_sell (rt : RateTables) (st : PortfolioState) (details : TransactionData) :
    Except LedgerError PortfolioState :=
  match record_sell_core rt st details with
  | .error e => .error e
  | .ok (new_trades, combined) =>
    .ok { open_positions := combined.filter keepLot
          closed_trades := st.closed_trades ++ new_trades }

/-- One ledger operation of the service. -/
inductive Op where
  | buy (details : TransactionData)
  | sell (details : TransactionData)
deriving DecidableEq, Repr

/-- Apply one operation. -/
def stepOp (rt : RateTables) (st : PortfolioState) : Op → Except LedgerError PortfolioState
  | .buy d => record_buy rt st d
  | .sell d => record_sell rt st d

/-- Apply a sequence of operations, stopping at the first error. -/
def runOps (rt : RateTables) (st : PortfolioState) :
    List Op → Except LedgerError PortfolioState
  | [] => .ok st
  | op :: rest =>
    match stepOp rt st op with
    | .error e => .error e
    | .ok st1 => runOps rt st1 rest

/-- Total ARS cost carried by the open lots. -/
def sumCostARS (lots : List Lot) : ℚ := (lots.map (fun l => l.total_cost_ars)).sum

/-- Total USD cost carried by the open lots. -/
def sumCostUSD (lots : List Lot) : ℚ := (lots.map (fun l => l.total_cost_usd)).sum

/-- Total ARS cost recorded across closed trades. -/
def sumTradeCostARS (ts : List ClosedTrade) : ℚ := (ts.map (fun t => t.total_cost_ars)).sum

/-- Total USD cost recorded across closed trades. -/
def sumTradeCostUSD (ts : List ClosedTrade) : ℚ := (ts.map (fun t => t.total_cost_usd)).sum

/-- The conserved ARS quantity: open cost plus closed cost. -/
def measureARS (st : PortfolioState) : ℚ :=
  sumCostARS st.open_positions + sumTradeCostARS st.closed_trades

/-- The conserved USD quantity: open cost plus closed cost. -/
def measureUSD (st : PortfolioState) : ℚ :=
  sumCostUSD st.open_positions + sumTradeCostUSD st.closed_trades

/-- The ARS cost a buy operation records (0 for sells and failing buys). -/
def buyCostRecordedARS (rt : RateTables) : Op → ℚ
  | .sell _ => 0
  | .buy d =>
    match buyCosts rt d with
    | .error _ => 0
    | .ok (cost_ars, _) => cost_ars

/-- The USD cost a buy operation records (0 for sells and failing buys). -/
def buyCostRecordedUSD (rt : RateTables) : Op → ℚ
  | .sell _ => 0
  | .buy d =>
    match buyCosts rt d with
    | .error _ => 0
    | .ok (_, cost_usd) => cost_usd

/-- Sum of the ARS costs recorded by the buy operations of a run. -/
def totalBuyCostARS (rt : RateTables) (ops : List Op) : ℚ :=
  (ops.map (buyCostRecordedARS rt)).sum

/-- Sum of the USD costs recorded by the buy operations of a run. -/
def totalBuyCostUSD (rt : RateTables) (ops : List Op) : ℚ :=
  (ops.map (buyCostRecordedUSD rt)).sum

/-- The lots a sell's dust filter removes. -/
def sellDropped (rt : RateTables) (st : PortfolioState) (details : TransactionData) :
    List Lot :=
  match record_sell_core rt st details with
  | .error _ => []
  | .ok (_, combined) => combined.filter (fun l => !keepLot l)

/-- A step is dust-free when its sell (if any) only filters out lots whose
residual cost is exactly zero. -/
def dustFreeStep (rt : RateTables) (st : PortfolioState) : Op → Bool
  | .buy _ => true
  | .sell d =>
    (sellDropped rt st d).all (fun l => l.total_cost_ars == 0 && l.total_cost_usd == 0)

/-- A run is dust-free when every successful step is. -/
def dustFreeRun (rt : RateTables) (st : PortfolioState) : List Op → Bool
  | [] => true
  | op :: rest =>
    dustFreeStep rt st op &&
      match stepOp rt st op with
      | .error _ => true
      | .ok st1 => dustFreeRun rt st1 rest

/-! ## Reconciliation pipeline (src/src/application/reconciliation_service.py) -/

/-- One cleaned transaction as produced by `_load_and_filter_new_transactions`
(already parsed, `state == "FULFILLED"`, known asset type). -/
structure RTx where
  broker_id : String
  date : Date
  op_type : String
  ticker : String
  asset_type : String
  quantity : ℚ
  price : ℚ
  currency : String
  total_net : ℚ
deriving DecidableEq, Repr

/-- An open-position record of the reconciliation pipeline (a dict copied from
the transaction, extended with the two optional cost fields). -/
structure RecLot where
  broker_id : String
  date : Date
  ticker : String
  asset_type : String
  quantity : ℚ
  total_cost_ars : Option ℚ
  total_cost_usd : Option ℚ
deriving DecidableEq, Repr

/-- A closed-trade record emitted by `_apply_sell_transaction`. -/
structure RecTrade where
  ticker : String
  quantity : ℚ
  buy_date : Date
  sell_date : Date
  total_cost_ars : ℚ
  total_cost_usd : ℚ
  total_revenue_ars : ℚ
  total_revenue_usd : ℚ
  buy_broker_transaction_id : String
  sell_broker_transaction_id : String
deriving DecidableEq, Repr

/-- The persisted reconciliation state: `open_positions.csv` plus the
append-only `closed_trades.csv`. -/
structure RecState where
  open_positions : List RecLot
  closed_trades : List RecTrade
deriving DecidableEq, Repr

/-- Embeds `_load_processed_ids`: every id present in the persisted open positions,
together with the buy-side and sell-side ids of the persisted closed trades. -/
def processedIds (st : RecState) : List String :=
  st.open_positions.map (fun l => l.broker_id)
    ++ st.closed_trades.map (fun t => t.buy_broker_transaction_id)
    ++ st.closed_trades.map (fun t => t.sell_broker_transaction_id)

/-- The check `tx.get("orderOperation") in ["BUY", "SELL"]`. -/
def validOp (tx : RTx) : Bool := tx.op_type == "BUY" || tx.op_type == "SELL"

/-- The id/operation filter of `_load_and_filter_new_transactions`: skip a
transaction whose id is already processed or whose operation is not BUY/SELL;
an accepted transaction's id joins the processed set at once (in-batch
de-duplication). -/
def filterNew (processed : List String) : List RTx → List RTx
  | [] => []
  | tx :: rest =>
    if tx.broker_id ∈ processed ∨ ¬ validOp tx then filterNew processed rest
    else tx :: filterNew (tx.broker_id :: processed) rest

/-- Date order on cleaned transactions, for the final
`new_transactions.sort(key=lambda x: x["date"])`. -/
def txDateLe (a b : RTx) : Prop := a.date.t ≤ b.date.t

instance : DecidableRel txDateLe := fun a b =>
  inferInstanceAs (Decidable (a.date.t ≤ b.date.t))

instance : IsTotal RTx txDateLe := ⟨fun a b => Int.le_total a.date.t b.date.t⟩

instance : IsTrans RTx txDateLe := ⟨fun _ _ _ hab hbc => le_trans hab hbc⟩

/-- The stable date sort of the accepted transactions. -/
def sortTxByDate (txs : List RTx) : List RTx := List.insertionSort txDateLe txs

/-- Date order on reconciliation lots (`sorted(..., key=lambda p: p["date"])`). -/
def recLotDateLe (a b : RecLot) : Prop := a.date.t ≤ b.date.t

instance : DecidableRel recLotDateLe := fun a b =>
  inferInstanceAs (Decidable (a.date.t ≤ b.date.t))

instance : IsTotal RecLot recLotDateLe := ⟨fun a b => Int.le_total a.date.t b.date.t⟩

instance : IsTrans RecLot recLotDateLe := ⟨fun _ _ _ hab hbc => le_trans hab hbc⟩

/-- Python's stable `sorted` by lot date. -/
def sortRecLotsByDate (lots : List RecLot) : List RecLot :=
  List.insertionSort recLotDateLe lots

/-- The update `lot["total_cost_*"] *= 1 - proportion`, guarded by Python truthiness of
the stored optional cost (`None` and `0` are left untouched). -/
def shrinkCost (c : Option ℚ) (proportion : ℚ) : Option ℚ :=
  match truthyRate c with
  | none => c
  | some v => some (v * (1 - proportion))

/-- The FIFO walk of `_apply_sell_transaction`: no quantity-sufficiency check;
a guard replaces the proportion by 0 on an empty lot; revenue shares guard
against a zero sell quantity; missing costs/revenues count as 0 in the trade. -/
def consumeRecLots (tx : RTx) (revenue_ars : ℚ) (revenue_usd : Option ℚ) :
    ℚ → List RecLot → List RecTrade × List RecLot
  | _, [] => ([], [])
  | remaining_to_sell, lot :: rest =>
    if remaining_to_sell ≤ 0 then ([], lot :: rest)
    else
      let qty_from_lot := min lot.quantity remaining_to_sell
      let proportion := if 0 < lot.quantity then qty_from_lot / lot.quantity else 0
      let ct : RecTrade :=
        { ticker := lot.ticker
          quantity := qty_from_lot
          buy_date := lot.date
          sell_date := tx.date
          total_cost_ars := (lot.total_cost_ars.getD 0) * proportion
          total_cost_usd := (lot.total_cost_usd.getD 0) * proportion
          total_revenue_ars :=
            if 0 < tx.quantity then revenue_ars * (qty_from_lot / tx.quantity) else 0
          total_revenue_usd :=
            if 0 < tx.quantity then (revenue_usd.getD 0) * (qty_from_lot / tx.quantity) else 0
          buy_broker_transaction_id := lot.broker_id
          sell_broker_transaction_id := tx.broker_id }
      let updated_lot : RecLot :=
        { lot with
          quantity := lot.quantity - qty_from_lot
          total_cost_ars := shrinkCost lot.total_cost_ars proportion
          total_cost_usd := shrinkCost lot.total_cost_usd proportion }
      let res := consumeRecLots tx revenue_ars revenue_usd
        (remaining_to_sell - qty_from_lot) rest
      (ct :: res.1, updated_lot :: res.2)

/-- Embeds `_apply_sell_transaction`: resolve the rate, derive net revenue in both
currencies (`None` marks the `TypeError` the source would raise when a non-ARS
sale has no rate at all), then walk the date-sorted matching lots. Returns the
new trades and the full open-position list after consumption (updated matching
lots listed after the others; all consumers are order-insensitive, see
`record_sell_core`). -/
def apply_sell_transaction (rates : RateTables) (tx : RTx)
    (open_positions : List RecLot) : Option (List RecTrade × List RecLot) :=
  let rate := get_rate rates tx.date tx.asset_type
  let revenue_ars? : Option ℚ :=
    if tx.currency = "ARS" then some tx.total_net
    else
      match rate with
      | none => none
      | some r => some (tx.total_net * r)
  match revenue_ars? with
  | none => none
  | some revenue_ars =>
    let revenue_usd : Option ℚ :=
      match truthyRate rate with
      | none => none
      | some r => some (revenue_ars / r)
    let matching :=
      sortRecLotsByDate (open_positions.filter (fun l => l.ticker == tx.ticker))
    let res := consumeRecLots tx revenue_ars revenue_usd tx.quantity matching
    some (res.1, open_positions.filter (fun l => !(l.ticker == tx.ticker)) ++ res.2)

/-- The BUY branch of `reconcile_portfolio`: the lot is appended whether or
not a rate was found; the ARS cost needs a (truthy) rate only for non-ARS
buys, the USD cost needs a truthy rate. -/
def applyRecBuy (rates : RateTables) (st : RecState) (tx : RTx) : RecState :=
  let rate := get_rate rates tx.date tx.asset_type
  let cost_ars : Option ℚ :=
    if tx.currency = "ARS" then some tx.total_net
    else
      match truthyRate rate with
      | none => none
      | some r => some (tx.total_net * r)
  let cost_usd : Option ℚ :=
    match truthyRate rate, cost_ars with
    | some r, some c => some (c / r)
    | _, _ => none
  { st with
    open_positions := st.open_positions ++
      [{ broker_id := tx.broker_id
         date := tx.date
         ticker := tx.ticker
         asset_type := tx.asset_type
         quantity := tx.quantity
         total_cost_ars := cost_ars
         total_cost_usd := cost_usd }] }

/-- Keep predicate of the reconciliation dust filter
`p["quantity"] > 0.001`. -/
def keepRecLot (l : RecLot) : Bool := decide (dustThreshold < l.quantity)

/-- One iteration of the main loop of `reconcile_portfolio`: buys append a
lot; sells run `_apply_sell_transaction`, extend the closed trades and filter
the open positions above the dust threshold. -/
def applyTx (rates : RateTables) (st : RecState) (tx : RTx) : Option RecState :=
  if tx.op_type = "BUY" then some (applyRecBuy rates st tx)
  else if tx.op_type = "SELL" then
    match apply_sell_transaction rates tx st.open_positions with
    | none => none
    | some (trades, positions) =>
      some { open_positions := positions.filter keepRecLot
             closed_trades := st.closed_trades ++ trades }
  else some st

/-- The main loop of `reconcile_portfolio` over the accepted transactions. -/
def applyAll (rates : RateTables) (st : RecState) : List RTx → Option RecState
  | [] => some st
  | tx :: rest =>
    match applyTx rates st tx with
    | none => none
    | some st1 => applyAll rates st1 rest

/-- Embeds `reconcile_portfolio` on an explicit snapshot: filter the transaction list
against the persisted ids, sort by date, and fold the main loop. -/
def reconcile (rates : RateTables) (st : RecState) (txs : List RTx) : Option RecState :=
  applyAll rates st (sortTxByDate (filterNew (processedIds st) txs))

/-! ## Return calculations (src/portfolio.py and src/src/domain/portfolio.py) -/

/-- The nominal-return computation of `Portfolio.log_closed_trade`
(portfolio.py): `(revenue / cost - 1) if cost > 0 else 0`, stored scaled by
100. A missing (`NaN`) cost is modelled by `none`; `NaN > 0` is false in
Python, so it also lands in the guarded 0 branch. -/
def log_nominal_return_pct (total_cost : Option ℚ) (total_revenue : ℚ) : ℚ :=
  (match total_cost with
   | some c => if 0 < c then total_revenue / c - 1 else 0
   | none => 0) * 100

/-- Float division with the non-finite results (a zero divisor gives inf or
NaN) collapsed to `none`. -/
def floatDiv (a b : ℚ) : Option ℚ := if b = 0 then none else some (a / b)

/-- The nominal-return column of `Portfolio.show_closed_trades`
(src/src/domain/portfolio.py): `(revenue / cost - 1) * 100` with no guard on
the cost. -/
def show_nominal_return_pct (total_revenue total_cost : ℚ) : Option ℚ :=
  match floatDiv total_revenue total_cost with
  | none => none
  | some x => some ((x - 1) * 100)

/-- All persisted open lots sit strictly above the dust threshold; the
reconciliation dust filter re-establishes this after every sell, and a buy
preserves it when its quantity exceeds the threshold. -/
def GoodState (st : RecState) : Prop :=
  ∀ l ∈ st.open_positions, dustThreshold < l.quantity

instance (st : RecState) : Decidable (GoodState st) :=
  inferInstanceAs (Decidable (∀ l ∈ st.open_positions, dustThreshold < l.quantity))

/-- Instrumentation for the replay-guard analysis: along a run, every SELL is
applied with positive quantity and at least one open lot of its ticker — the
condition under which it emits at least one ClosedTrade, so that its id is
persisted. -/
def sellsMatch (rates : RateTables) : RecState → List RTx → Bool
  | _, [] => true
  | st, tx :: rest =>
    (if tx.op_type = "SELL" then
      decide (0 < tx.quantity) && st.open_positions.any (fun l => l.ticker == tx.ticker)
     else true) &&
    (match applyTx rates st tx with
     | none => false
     | some st1 => sellsMatch rates st1 rest)

/-! ## Helper lemmas: nearest-date lookup on a sorted series -/

lemma foldl_nearest_strict (d : Date) :
    ∀ (ps : List RatePoint) (p : RatePoint),
      List.Chain' (fun a b => distTo d b < distTo d a) (p :: ps) →
      ps.foldl (fun best q => if distTo d q < distTo d best then q else best) p
        = (p :: ps).getLast (List.cons_ne_nil p ps)
  | [], _, _ => rfl
  | q :: ps, p, h => by
    have h1 : distTo d q < distTo d p := (List.chain'_cons.mp h).1
    have h2 := (List.chain'_cons.mp h).2
    simp only [List.foldl_cons, if_pos h1]
    rw [foldl_nearest_strict d ps q h2]
    exact (List.getLast_cons (List.cons_ne_nil q ps)).symm

lemma chain'_dist_of_sorted (d : Date) :
    ∀ pts : List RatePoint,
      List.Pairwise (fun a b : RatePoint => a.date.t < b.date.t) pts →
      (∀ p ∈ pts, p.date.t ≤ d.t) →
      List.Chain' (fun a b => distTo d b < distTo d a) pts
  | [], _, _ => List.chain'_nil
  | [_], _, _ => by simp
  | a :: b :: rest, hp, hle => by
    rw [List.chain'_cons]
    have hab : a.date.t < b.date.t := (List.pairwise_cons.mp hp).1 b (List.mem_cons_self b rest)
    have hbd : b.date.t ≤ d.t := hle b (List.mem_cons_of_mem a (List.mem_cons_self b rest))
    have had : a.date.t ≤ d.t := hle a (List.mem_cons_self a (b :: rest))
    constructor
    · show |b.date.t - d.t| < |a.date.t - d.t|
      rw [abs_of_nonpos (by omega), abs_of_nonpos (by omega)]
      omega
    · exact chain'_dist_of_sorted d (b :: rest) (List.pairwise_cons.mp hp).2
        (fun p hp2 => hle p (List.mem_cons_of_mem a hp2))

lemma nearestPoint_sorted_le (d : Date) (pts : List RatePoint) (hne : pts ≠ [])
    (hsort : List.Pairwise (fun a b : RatePoint => a.date.t < b.date.t) pts)
    (hle : ∀ p ∈ pts, p.date.t ≤ d.t) :
    nearestPoint d pts = some (pts.getLast hne) := by
  cases pts with
  | nil => exact absurd rfl hne
  | cons p ps =>
    simp only [nearestPoint, Option.some.injEq]
    exact foldl_nearest_strict d ps p (chain'_dist_of_sorted d (p :: ps) hsort hle)

lemma pairwise_le_getLast :
    ∀ (pts : List RatePoint) (hne : pts ≠ []),
      List.Pairwise (fun a b : RatePoint => a.date.t < b.date.t) pts →
      ∀ p ∈ pts, p.date.t ≤ (pts.getLast hne).date.t
  | [], hne, _ => absurd rfl hne
  | [a], _, _ => by
    intro p hp
    rw [List.mem_singleton] at hp
    subst hp
    exact le_refl _
  | a :: b :: rest, _, hp => by
    intro p hmem
    rw [List.getLast_cons (List.cons_ne_nil b rest)]
    rcases List.mem_cons.mp hmem with he | hm
    · subst he
      have := (List.pairwise_cons.mp hp).1 ((b :: rest).getLast (List.cons_ne_nil b rest))
        (List.getLast_mem (List.cons_ne_nil b rest))
      exact le_of_lt this
    · exact pairwise_le_getLast (b :: rest) (List.cons_ne_nil b rest)
        (List.pairwise_cons.mp hp).2 p hm

lemma sortPoints_eq_self (pts : List RatePoint)
    (hsort : List.Pairwise (fun a b : RatePoint => a.date.t < b.date.t) pts) :
    sortPoints pts = pts :=
  List.Sorted.insertionSort_eq (hsort.imp (fun h => le_of_lt h))

/-- C7: for every non-empty inflation series (date-sorted, as the RateSeries
invariant guarantees), querying the resolver at exactly the series' last known
date returns exactly that point's stored value — the nearest-date branch is
taken and resolves to the last point, with no extrapolation applied. -/
theorem c7_boundary_no_extrapolation (cpi : List RatePoint) (hne : cpi ≠ [])
    (hsort : List.Pairwise (fun a b : RatePoint => a.date.t < b.date.t) cpi) :
    get_cpi_value_for_date (cpi.getLast hne).date cpi = some (cpi.getLast hne).value := by
  have hs : sortPoints cpi = cpi := sortPoints_eq_self cpi hsort
  unfold get_cpi_value_for_date
  rw [hs]
  simp only [List.getLast?_eq_getLast cpi hne]
  rw [if_pos (le_refl _),
    nearestPoint_sorted_le _ cpi hne hsort (pairwise_le_getLast cpi hne hsort)]

/-- Witness for C7 at a concrete two-point series. -/
theorem c7_boundary_no_extrapolation_witness :
    ([⟨⟨0, 2025, 1⟩, 100⟩, ⟨⟨31, 2025, 2⟩, 110⟩] : List RatePoint) ≠ [] ∧
    get_cpi_value_for_date
      (([⟨⟨0, 2025, 1⟩, 100⟩, ⟨⟨31, 2025, 2⟩, 110⟩] : List RatePoint).getLast (by decide)).date
      [⟨⟨0, 2025, 1⟩, 100⟩, ⟨⟨31, 2025, 2⟩, 110⟩] =
      some (([⟨⟨0, 2025, 1⟩, 100⟩, ⟨⟨31, 2025, 2⟩, 110⟩] : List RatePoint).getLast (by decide)).value :=
  ⟨by decide,
   c7_boundary_no_extrapolation [⟨⟨0, 2025, 1⟩, 100⟩, ⟨⟨31, 2025, 2⟩, 110⟩]
     (by decide) (by decide)⟩

/-- C8 counterexample: a non-empty exchange-rate series queried strictly after
its last known date (last point at t = 0, query at t = 5) does NOT signal
NotAvailable — `get_rate` returns the nearest (= last) value 100. -/
theorem c8_no_notavailable_counterexample :
    ((⟨5, 2025, 1⟩ : Date).t > (⟨⟨0, 2025, 1⟩, 100⟩ : RatePoint).date.t) ∧
    get_rate ⟨[⟨⟨0, 2025, 1⟩, (100 : ℚ)⟩], []⟩ ⟨5, 2025, 1⟩ "ACCION" = some 100 ∧
    get_rate ⟨[⟨⟨0, 2025, 1⟩, (100 : ℚ)⟩], []⟩ ⟨5, 2025, 1⟩ "ACCION" ≠ none := by
  refine ⟨by decide, by decide, by decide⟩

/-- C8 (amended): the exchange-rate resolver never extrapolates, but it does
not signal NotAvailable after the last known date either — for every non-empty
(date-sorted) series and every query date strictly after the last point, the
nearest-date lookup returns the last known value; NotAvailable arises only
from an empty series. -/
theorem c8_after_last_returns_last_value (rt : RateTables) (date : Date)
    (asset_type : String) (df : List RatePoint)
    (hdf : (if asset_type = "CEDEAR" then rt.dolar_ccl else rt.dolar_mep) = df)
    (hne : df ≠ [])
    (hsort : List.Pairwise (fun a b : RatePoint => a.date.t < b.date.t) df)
    (hafter : (df.getLast hne).date.t < date.t) :
    get_rate rt date asset_type = some (df.getLast hne).value := by
  have hle : ∀ p ∈ df, p.date.t ≤ date.t := fun p hp =>
    le_of_lt (lt_of_le_of_lt (pairwise_le_getLast df hne hsort p hp) hafter)
  unfold get_rate
  rw [hdf]
  show (match nearestPoint date (sortPoints df) with
    | none => none
    | some p => some p.value) = some (df.getLast hne).value
  rw [sortPoints_eq_self df hsort, nearestPoint_sorted_le date df hne hsort hle]

/-- Witness for C8 at a concrete two-point MEP series. -/
theorem c8_after_last_witness :
    get_rate ⟨[⟨⟨0, 2025, 1⟩, (100 : ℚ)⟩, ⟨⟨3, 2025, 1⟩, (120 : ℚ)⟩], []⟩ ⟨9, 2025, 1⟩ "RF" =
      some (([⟨⟨0, 2025, 1⟩, (100 : ℚ)⟩, ⟨⟨3, 2025, 1⟩, (120 : ℚ)⟩] :
        List RatePoint).getLast (by decide)).value :=
  c8_after_last_returns_last_value
    ⟨[⟨⟨0, 2025, 1⟩, 100⟩, ⟨⟨3, 2025, 1⟩, 120⟩], []⟩ ⟨9, 2025, 1⟩ "RF"
    [⟨⟨0, 2025, 1⟩, 100⟩, ⟨⟨3, 2025, 1⟩, 120⟩]
    (by decide) (by decide) (by decide) (by decide)

/-- C9 counterexample: in `Portfolio.show_closed_trades`
(src/src/domain/portfolio.py) the nominal-return column is computed with no
guard, so a closed trade with zero cost and revenue 100 yields a non-finite
value (`none`), not the 0% the claim asserts. -/
theorem c9_unguarded_division_counterexample :
    show_nominal_return_pct 100 0 = none ∧ (none : Option ℚ) ≠ some 0 := by
  refine ⟨by decide, by decide⟩

/-- C9 (amended): `Portfolio.log_closed_trade` (portfolio.py) guards the
nominal return — `(revenue / cost - 1) * 100` for a strictly positive cost and
exactly 0 for a zero, negative or missing cost; `Portfolio.show_closed_trades`
(src/src/domain/portfolio.py) performs the division unguarded, so a zero cost
produces a non-finite value there. -/
theorem c9_nominal_zero_cost_guard (c total_revenue : ℚ) :
    (0 < c →
      log_nominal_return_pct (some c) total_revenue = (total_revenue / c - 1) * 100) ∧
    log_nominal_return_pct (some 0) total_revenue = 0 ∧
    (c ≤ 0 → log_nominal_return_pct (some c) total_revenue = 0) ∧
    log_nominal_return_pct none total_revenue = 0 ∧
    (c ≠ 0 → show_nominal_return_pct total_revenue c = some ((total_revenue / c - 1) * 100)) ∧
    show_nominal_return_pct total_revenue 0 = none := by
  refine ⟨?_, ?_, ?_, ?_, ?_, ?_⟩
  · intro h
    simp [log_nominal_return_pct, if_pos h]
  · simp [log_nominal_return_pct]
  · intro h
    simp [log_nominal_return_pct, if_neg (not_lt.mpr h)]
  · simp [log_nominal_return_pct]
  · intro h
    simp [show_nominal_return_pct, floatDiv, if_neg h]
  · simp [show_nominal_return_pct, floatDiv]

/-- Witness for C9 at cost 2, revenue 3. -/
theorem c9_nominal_zero_cost_witness :
    (0 : ℚ) < 2 ∧ log_nominal_return_pct (some 2) 3 = ((3 : ℚ) / 2 - 1) * 100 :=
  ⟨by decide, (c9_nominal_zero_cost_guard 2 3).1 (by decide)⟩

/-- C10 (implicit): a resolved exchange rate of exactly 0.0 is Python-falsy,
so `record_buy` (for any recognized instrument category) and `record_sell`
(past its quantity check) both raise the rate-unavailable error and leave the
ledger untouched — the error return carries no new state, hence every appended
lot and every emitted ClosedTrade was converted with a strictly nonzero rate. -/
theorem c10_zero_rate_treated_as_missing (rt : RateTables) (st : PortfolioState)
    (details : TransactionData) :
    ((get_rate rt details.date (pyUpper details.asset_type) = some 0) →
     (∃ b, grossAmount (instrumentCategory details) details.quantity details.price = .ok b) →
     record_buy rt st details = .error (.rateUnavailable details.date)) ∧
    ((get_rate rt details.date details.asset_type = some 0) →
     (¬ sumQuantities (sortLotsByDate (st.open_positions.filter
        (fun l => l.ticker == details.ticker))) < details.quantity) →
     record_sell rt st details = .error (.rateUnavailable details.date)) := by
  constructor
  · rintro hrate ⟨b, hb⟩
    unfold record_buy buyCosts
    rw [hb, hrate]
    simp [truthyRate]
  · intro hrate hsum
    unfold record_sell record_sell_core
    rw [if_neg hsum, hrate]
    simp [truthyRate]

/-- Witness for C10: a MEP series whose nearest value is 0 on the trade date;
the buy (quantity 2, ACCION) and the sell (quantity 0 against no open lots)
both fail with the rate-unavailable error. -/
theorem c10_zero_rate_witness :
    record_buy ⟨[⟨⟨0, 2025, 1⟩, (0 : ℚ)⟩], []⟩ ⟨[], []⟩
      ⟨⟨0, 2025, 1⟩, "T", "ACCION", none, 5, 2, "ARS", 0, 0, 0, none, none⟩ =
      .error (.rateUnavailable ⟨0, 2025, 1⟩) ∧
    record_sell ⟨[⟨⟨0, 2025, 1⟩, (0 : ℚ)⟩], []⟩ ⟨[], []⟩
      ⟨⟨0, 2025, 1⟩, "T", "ACCION", none, 5, 0, "ARS", 0, 0, 0, none, none⟩ =
      .error (.rateUnavailable ⟨0, 2025, 1⟩) :=
  ⟨(c10_zero_rate_treated_as_missing ⟨[⟨⟨0, 2025, 1⟩, 0⟩], []⟩ ⟨[], []⟩
      ⟨⟨0, 2025, 1⟩, "T", "ACCION", none, 5, 2, "ARS", 0, 0, 0, none, none⟩).1
      (by decide) ⟨2 * 5, rfl⟩,
   (c10_zero_rate_treated_as_missing ⟨[⟨⟨0, 2025, 1⟩, 0⟩], []⟩ ⟨[], []⟩
      ⟨⟨0, 2025, 1⟩, "T", "ACCION", none, 5, 0, "ARS", 0, 0, 0, none, none⟩).2
      (by decide) (by norm_num [sumQuantities, sortLotsByDate, List.insertionSort])⟩

/-- C3 (amended, service path): a sell whose quantity exceeds the summed
quantity of the ticker's open lots is rejected by
`TransactionService.record_sell` with the insufficient-quantity error before
any lot is touched or any trade emitted — the error return carries no state,
so the ledger is exactly as before the call. -/
theorem c3_oversell_rejected_atomically (rt : RateTables) (st : PortfolioState)
    (details : TransactionData)
    (hover : sumQuantities (st.open_positions.filter
      (fun l => l.ticker == details.ticker)) < details.quantity) :
    record_sell rt st details = .error (.insufficientQuantity details.ticker) := by
  have hsum : sumQuantities (sortLotsByDate (st.open_positions.filter
      (fun l => l.ticker == details.ticker))) = sumQuantities (st.open_positions.filter
      (fun l => l.ticker == details.ticker)) := by
    unfold sumQuantities sortLotsByDate
    exact List.Perm.sum_eq (List.Perm.map _ (List.perm_insertionSort lotDateLe _))
  unfold record_sell record_sell_core
  rw [if_pos (by rw [hsum]; exact hover)]

/-- Witness for C3's amended theorem: selling 10 units of T against a single
5-unit lot is rejected. -/
theorem c3_oversell_rejected_witness :
    record_sell ⟨[], []⟩
      ⟨[⟨⟨0, 2025, 1⟩, "T", 5, 100, 10, "ACCION", none, some "b1"⟩], []⟩
      ⟨⟨1, 2025, 1⟩, "T", "ACCION", none, 5, 10, "ARS", 0, 0, 0, none, some "s1"⟩ =
      .error (.insufficientQuantity "T") :=
  c3_oversell_rejected_atomically ⟨[], []⟩
    ⟨[⟨⟨0, 2025, 1⟩, "T", 5, 100, 10, "ACCION", none, some "b1"⟩], []⟩
    ⟨⟨1, 2025, 1⟩, "T", "ACCION", none, 5, 10, "ARS", 0, 0, 0, none, some "s1"⟩
    (by norm_num [sumQuantities, List.filter])

/-- C3 counterexample (reconciliation path): `_apply_sell_transaction` has no
quantity-sufficiency check. Selling 10 units of T against a single open lot of
5 units does not fail: it emits a ClosedTrade for the 5 available units
(allocating only half of the sale's revenue) and zeroes the lot. -/
theorem c3_reconciliation_oversell_counterexample :
    ((5 : ℚ) < 10) ∧
    apply_sell_transaction ⟨[], []⟩
      ⟨"s1", ⟨10, 2025, 1⟩, "SELL", "T", "ACCION", 10, 5, "ARS", 50⟩
      [⟨"b1", ⟨0, 2025, 1⟩, "T", "ACCION", 5, some 100, some 10⟩] =
      some ([⟨"T", 5, ⟨0, 2025, 1⟩, ⟨10, 2025, 1⟩, 100, 10, 25, 0, "b1", "s1"⟩],
        [⟨"b1", ⟨0, 2025, 1⟩, "T", "ACCION", 0, some 0, some 0⟩]) := by
  refine ⟨by norm_num, ?_⟩
  norm_num [apply_sell_transaction, get_rate, nearestPoint, sortPoints, consumeRecLots,
    shrinkCost, truthyRate, sortRecLotsByDate, List.insertionSort, List.orderedInsert,
    List.filter, recLotDateLe]

/-! ## Helper lemmas: the FIFO walk of record_sell -/

lemma consume_nonpos (sd : Date) (sq ra ru : ℚ) (sid : Option String)
    (q : ℚ) (lots : List Lot) (hq : q ≤ 0) :
    consumeLots sd sq ra ru sid q lots = ([], lots) := by
  cases lots with
  | nil => rfl
  | cons lot rest => rw [consumeLots, if_pos hq]

/-- C4: splitting a lot on a partial sell. Consuming `q` units of the oldest
lot (with `0 < q < lot.quantity`) emits exactly one ClosedTrade carrying the
fraction `q / lot.quantity` of the lot's two cost fields and the fraction
`q / tx.quantity` of the sale's total revenue, shrinks the lot's quantity by
`q` and its costs by the same fraction, leaves deeper lots untouched, and
preserves the lot's cost-per-unit (in both currencies). -/
theorem c4_partial_lot_split (sell_date : Date)
    (sell_quantity revenue_ars revenue_usd : ℚ) (sell_id : Option String)
    (lot : Lot) (rest : List Lot) (q : ℚ) (h0 : 0 < q) (hlt : q < lot.quantity) :
    consumeLots sell_date sell_quantity revenue_ars revenue_usd sell_id q (lot :: rest) =
      ([{ ticker := lot.ticker
          quantity := q
          buy_date := lot.purchase_date
          sell_date := sell_date
          asset_type := lot.asset_type
          total_cost_ars := lot.total_cost_ars * (q / lot.quantity)
          total_cost_usd := lot.total_cost_usd * (q / lot.quantity)
          total_revenue_ars := revenue_ars * (q / sell_quantity)
          total_revenue_usd := revenue_usd * (q / sell_quantity)
          buy_broker_transaction_id := lot.broker_transaction_id
          sell_broker_transaction_id := sell_id }],
       { lot with
         quantity := lot.quantity - q
         total_cost_ars := lot.total_cost_ars * (1 - q / lot.quantity)
         total_cost_usd := lot.total_cost_usd * (1 - q / lot.quantity) } :: rest) ∧
    lot.total_cost_ars * (1 - q / lot.quantity) * lot.quantity
      = lot.total_cost_ars * (lot.quantity - q) ∧
    lot.total_cost_usd * (1 - q / lot.quantity) * lot.quantity
      = lot.total_cost_usd * (lot.quantity - q) := by
  have hq0 : lot.quantity ≠ 0 := ne_of_gt (lt_trans h0 hlt)
  have hmin : min lot.quantity q = q := min_eq_right (le_of_lt hlt)
  refine ⟨?_, ?_, ?_⟩
  · rw [consumeLots, if_neg (not_le.mpr h0)]
    simp only [hmin, sub_self]
    rw [consume_nonpos sell_date sell_quantity revenue_ars revenue_usd sell_id 0 rest
      (le_refl 0)]
    simp only [Prod.mk.injEq, List.cons.injEq, and_true, Lot.mk.injEq,
      ClosedTrade.mk.injEq, true_and]
    refine ⟨?_, ?_⟩ <;> ring
  · field_simp
  · field_simp

/-- Witness for C4: the spec's concrete instance — a lot of 50 units costing
500 ARS (5 USD) sold for 20 units leaves the lot at 30 units / 300 ARS and
emits one ClosedTrade costing 200 ARS. -/
theorem c4_partial_lot_split_witness :
    (0 : ℚ) < 20 ∧ (20 : ℚ) < 50 ∧
    consumeLots ⟨5, 2025, 1⟩ 20 1000 10 (some "s1") 20
      [⟨⟨0, 2025, 1⟩, "T", 50, 500, 5, "ACCION", none, some "b1"⟩] =
      ([⟨"T", 20, ⟨0, 2025, 1⟩, ⟨5, 2025, 1⟩, "ACCION", 200, 2, 1000, 10,
         some "b1", some "s1"⟩],
       [⟨⟨0, 2025, 1⟩, "T", 30, 300, 3, "ACCION", none, some "b1"⟩]) := by
  refine ⟨by norm_num, by norm_num, ?_⟩
  have h := (c4_partial_lot_split ⟨5, 2025, 1⟩ 20 1000 10 (some "s1")
    ⟨⟨0, 2025, 1⟩, "T", 50, 500, 5, "ACCION", none, some "b1"⟩ [] 20
    (by norm_num) (by norm_num)).1
  rw [h]
  norm_num

lemma consume_cons (sd : Date) (sq ra ru : ℚ) (sid : Option String)
    (q : ℚ) (lot : Lot) (rest : List Lot) (hq : ¬ q ≤ 0) :
    consumeLots sd sq ra ru sid q (lot :: rest) =
      (({ ticker := lot.ticker
          quantity := min lot.quantity q
          buy_date := lot.purchase_date
          sell_date := sd
          asset_type := lot.asset_type
          total_cost_ars := lot.total_cost_ars * (min lot.quantity q / lot.quantity)
          total_cost_usd := lot.total_cost_usd * (min lot.quantity q / lot.quantity)
          total_revenue_ars := ra * (min lot.quantity q / sq)
          total_revenue_usd := ru * (min lot.quantity q / sq)
          buy_broker_transaction_id := lot.broker_transaction_id
          sell_broker_transaction_id := sid } : ClosedTrade) ::
        (consumeLots sd sq ra ru sid (q - min lot.quantity q) rest).1,
       ({ lot with
          quantity := lot.quantity - min lot.quantity q
          total_cost_ars := lot.total_cost_ars
            - lot.total_cost_ars * (min lot.quantity q / lot.quantity)
          total_cost_usd := lot.total_cost_usd
            - lot.total_cost_usd * (min lot.quantity q / lot.quantity) }) ::
        (consumeLots sd sq ra ru sid (q - min lot.quantity q) rest).2) := by
  rw [consumeLots, if_neg hq]

lemma consume_shape (sd : Date) (sq ra ru : ℚ) (sid : Option String)
    (lots : List Lot) :
    ∀ q : ℚ,
      ∃ k, (∀ l ∈ (consumeLots sd sq ra ru sid q lots).2.take k, l.quantity = 0) ∧
        (consumeLots sd sq ra ru sid q lots).2.drop (k + 1) = lots.drop (k + 1) ∧
        (consumeLots sd sq ra ru sid q lots).2.length = lots.length := by
  induction lots with
  | nil =>
    intro q
    exact ⟨0, by simp [consumeLots], by simp [consumeLots], by simp [consumeLots]⟩
  | cons lot rest ih =>
    intro q
    by_cases hq : q ≤ 0
    · rw [consume_nonpos sd sq ra ru sid q (lot :: rest) hq]
      exact ⟨0, by simp, rfl, rfl⟩
    · rw [consume_cons sd sq ra ru sid q lot rest hq]
      by_cases hml : lot.quantity ≤ q
      · rw [min_eq_left hml]
        obtain ⟨k, h1, h2, h3⟩ := ih (q - lot.quantity)
        refine ⟨k + 1, ?_, ?_, ?_⟩
        · intro l hl
          rw [List.take_succ_cons] at hl
          rcases List.mem_cons.mp hl with he | hm
          · rw [he]
            exact sub_self lot.quantity
          · exact h1 l hm
        · rw [List.drop_succ_cons, List.drop_succ_cons]
          exact h2
        · simp only [List.length_cons, h3]
      · rw [min_eq_right (le_of_lt (lt_of_not_le hml)), sub_self,
          consume_nonpos sd sq ra ru sid 0 rest (le_refl 0)]
        exact ⟨0, by simp, rfl, rfl⟩

lemma consume_append_split (sd : Date) (sq ra ru : ℚ) (sid : Option String) :
    ∀ (xs ys : List Lot) (q : ℚ), q ≤ sumQuantities xs →
      consumeLots sd sq ra ru sid q (xs ++ ys) =
        ((consumeLots sd sq ra ru sid q xs).1,
         (consumeLots sd sq ra ru sid q xs).2 ++ ys) := by
  intro xs
  induction xs with
  | nil =>
    intro ys q hsum
    have hq : q ≤ 0 := by simpa [sumQuantities] using hsum
    rw [List.nil_append, consume_nonpos sd sq ra ru sid q ys hq,
      consume_nonpos sd sq ra ru sid q [] hq]
    rfl
  | cons x xs ih =>
    intro ys q hsum
    by_cases hq : q ≤ 0
    · rw [consume_nonpos sd sq ra ru sid q ((x :: xs) ++ ys) hq,
        consume_nonpos sd sq ra ru sid q (x :: xs) hq]
    · rw [List.cons_append, consume_cons sd sq ra ru sid q x (xs ++ ys) hq,
        consume_cons sd sq ra ru sid q x xs hq]
      by_cases hml : x.quantity ≤ q
      · rw [min_eq_left hml]
        have hsum2 : q - x.quantity ≤ sumQuantities xs := by
          unfold sumQuantities at hsum ⊢
          simp only [List.map_cons, List.sum_cons] at hsum
          linarith
        rw [ih ys (q - x.quantity) hsum2]
        rfl
      · rw [min_eq_right (le_of_lt (lt_of_not_le hml)), sub_self,
          consume_nonpos sd sq ra ru sid 0 (xs ++ ys) (le_refl 0),
          consume_nonpos sd sq ra ru sid 0 xs (le_refl 0)]
        rfl

/-- C2: FIFO consumption. `record_sell` walks the matching lots sorted
ascending by purchase date (conjunct 1: the sorted list it consumes is ordered
by `purchase_date`). The walk drains strictly older lots to quantity 0 before
touching newer ones: the updated list is a (possibly empty) fully-drained
prefix, then at most one boundary lot, and every lot past the boundary —
including its quantity and both cost fields — is exactly as before (conjunct
2). When the quantity sold does not exceed the total quantity of all lots but
the newest, the newest lot is returned completely unchanged (conjunct 3). -/
theorem c2_fifo_consumption (sell_date : Date) (sq ra ru : ℚ) (sid : Option String)
    (q : ℚ) (lots : List Lot) :
    List.Sorted lotDateLe (sortLotsByDate lots) ∧
    (∃ k,
      (∀ l ∈ (consumeLots sell_date sq ra ru sid q (sortLotsByDate lots)).2.take k,
        l.quantity = 0) ∧
      (consumeLots sell_date sq ra ru sid q (sortLotsByDate lots)).2.drop (k + 1) =
        (sortLotsByDate lots).drop (k + 1) ∧
      (consumeLots sell_date sq ra ru sid q (sortLotsByDate lots)).2.length =
        (sortLotsByDate lots).length) ∧
    (q ≤ sumQuantities (sortLotsByDate lots).dropLast →
      (consumeLots sell_date sq ra ru sid q (sortLotsByDate lots)).2.getLast? =
        (sortLotsByDate lots).getLast?) := by
  refine ⟨List.sorted_insertionSort lotDateLe lots,
    consume_shape sell_date sq ra ru sid (sortLotsByDate lots) q, ?_⟩
  intro hsum
  cases hs : sortLotsByDate lots with
  | nil => rfl
  | cons p ps =>
    rw [hs] at hsum
    have hne : p :: ps ≠ [] := List.cons_ne_nil p ps
    conv_lhs => rw [← List.dropLast_append_getLast hne]
    rw [consume_append_split sell_date sq ra ru sid (p :: ps).dropLast
      [(p :: ps).getLast hne] q hsum]
    rw [List.getLast?_concat, List.getLast?_eq_getLast (p :: ps) hne]

/-- Witness for C2: three 5-unit lots dated t = 1, 2, 3; selling 7 units
drains only the two older lots, and the newest lot (date t = 3) is returned
unchanged. -/
theorem c2_fifo_consumption_witness :
    (7 : ℚ) ≤ sumQuantities (sortLotsByDate
      [⟨⟨1, 2025, 1⟩, "T", 5, 100, 10, "ACCION", none, some "b1"⟩,
       ⟨⟨2, 2025, 1⟩, "T", 5, 200, 20, "ACCION", none, some "b2"⟩,
       ⟨⟨3, 2025, 1⟩, "T", 5, 300, 30, "ACCION", none, some "b3"⟩]).dropLast ∧
    (consumeLots ⟨9, 2025, 1⟩ 7 700 70 (some "s1") 7 (sortLotsByDate
      [⟨⟨1, 2025, 1⟩, "T", 5, 100, 10, "ACCION", none, some "b1"⟩,
       ⟨⟨2, 2025, 1⟩, "T", 5, 200, 20, "ACCION", none, some "b2"⟩,
       ⟨⟨3, 2025, 1⟩, "T", 5, 300, 30, "ACCION", none, some "b3"⟩])).2.getLast? =
    (sortLotsByDate
      [⟨⟨1, 2025, 1⟩, "T", 5, 100, 10, "ACCION", none, some "b1"⟩,
       ⟨⟨2, 2025, 1⟩, "T", 5, 200, 20, "ACCION", none, some "b2"⟩,
       ⟨⟨3, 2025, 1⟩, "T", 5, 300, 30, "ACCION", none, some "b3"⟩]).getLast? := by
  have hsum : (7 : ℚ) ≤ sumQuantities (sortLotsByDate
      [⟨⟨1, 2025, 1⟩, "T", 5, 100, 10, "ACCION", none, some "b1"⟩,
       ⟨⟨2, 2025, 1⟩, "T", 5, 200, 20, "ACCION", none, some "b2"⟩,
       ⟨⟨3, 2025, 1⟩, "T", 5, 300, 30, "ACCION", none, some "b3"⟩]).dropLast := by
    norm_num [sumQuantities, sortLotsByDate, List.insertionSort, List.orderedInsert,
      lotDateLe, List.dropLast]
  exact ⟨hsum, (c2_fifo_consumption ⟨9, 2025, 1⟩ 7 700 70 (some "s1") 7
    [⟨⟨1, 2025, 1⟩, "T", 5, 100, 10, "ACCION", none, some "b1"⟩,
     ⟨⟨2, 2025, 1⟩, "T", 5, 200, 20, "ACCION", none, some "b2"⟩,
     ⟨⟨3, 2025, 1⟩, "T", 5, 300, 30, "ACCION", none, some "b3"⟩]).2.2 hsum⟩

lemma pctChanges_length : ∀ xs : List ℚ, (pctChanges xs).length = xs.length - 1
  | [] => rfl
  | [_] => rfl
  | a :: b :: rest => by
    simp only [pctChanges, List.length_cons, pctChanges_length (b :: rest)]
    omega

/-- C6: forward extrapolation of the inflation series. For a non-empty
(date-sorted) CPI series and a query strictly after the last known date, the
resolver returns the last value compounded by `(1 + r) ^ m`, where `m` is the
calendar-month difference between the last date and the query, and `r` is the
mean — the sum divided by 6 — of the six most recent month-over-month growth
rates when the series has at least 7 points, and the fallback 0.002 = 1/500
per month otherwise. -/
theorem c6_cpi_forward_extrapolation (cpi : List RatePoint) (target : Date)
    (hne : cpi ≠ [])
    (hsort : List.Pairwise (fun a b : RatePoint => a.date.t < b.date.t) cpi)
    (hafter : (cpi.getLast hne).date.t < target.t) :
    get_cpi_value_for_date target cpi =
      some ((cpi.getLast hne).value *
        (1 + (if 7 ≤ cpi.length
          then (pctChanges ((cpi.drop (cpi.length - 7)).map (fun p => p.value))).sum / 6
          else 1 / 500)) ^ monthsDiff (cpi.getLast hne).date target) := by
  have hs : sortPoints cpi = cpi := sortPoints_eq_self cpi hsort
  unfold get_cpi_value_for_date
  rw [hs]
  simp only [List.getLast?_eq_getLast cpi hne]
  rw [if_neg (not_le.mpr hafter)]
  by_cases h7 : 7 ≤ cpi.length
  · rw [if_pos h7, if_pos h7]
    have hlen : (pctChanges ((cpi.drop (cpi.length - 7)).map (fun p => p.value))).length
        = 6 := by
      rw [pctChanges_length, List.length_map, List.length_drop]
      omega
    unfold listMean
    rw [hlen]
    norm_num
  · rw [if_neg h7, if_neg h7]
    rfl

/-- Witness for C6: a 7-point series doubling every month (six growth rates of
100%, mean 1), queried two calendar months past the last point: 64 * 2^2. -/
theorem c6_cpi_forward_extrapolation_witness :
    get_cpi_value_for_date ⟨100, 2025, 9⟩
      [⟨⟨0, 2025, 1⟩, 1⟩, ⟨⟨1, 2025, 2⟩, 2⟩, ⟨⟨2, 2025, 3⟩, 4⟩, ⟨⟨3, 2025, 4⟩, 8⟩,
       ⟨⟨4, 2025, 5⟩, 16⟩, ⟨⟨5, 2025, 6⟩, 32⟩, ⟨⟨6, 2025, 7⟩, 64⟩] = some 256 := by
  rw [c6_cpi_forward_extrapolation
    [⟨⟨0, 2025, 1⟩, 1⟩, ⟨⟨1, 2025, 2⟩, 2⟩, ⟨⟨2, 2025, 3⟩, 4⟩, ⟨⟨3, 2025, 4⟩, 8⟩,
     ⟨⟨4, 2025, 5⟩, 16⟩, ⟨⟨5, 2025, 6⟩, 32⟩, ⟨⟨6, 2025, 7⟩, 64⟩] ⟨100, 2025, 9⟩
    (by decide) (by decide) (by decide)]
  norm_num [pctChanges, monthsDiff]

/-! ## Helper lemmas: cost conservation -/

lemma sum_filter_not_add {α : Type} (p : α → Bool) (f : α → ℚ) :
    ∀ xs : List α,
      ((xs.filter p).map f).sum + ((xs.filter (fun a => !p a)).map f).sum
        = (xs.map f).sum := by
  intro xs
  induction xs with
  | nil => simp
  | cons x xs ih =>
    cases hx : p x with
    | true =>
      simp [List.filter_cons, hx]
      linarith
    | false =>
      simp [List.filter_cons, hx]
      linarith

lemma sum_map_zero {α : Type} (f : α → ℚ) (xs : List α)
    (h : ∀ x ∈ xs, f x = 0) : (xs.map f).sum = 0 :=
  List.sum_eq_zero (by
    intro y hy
    obtain ⟨x, hx, he⟩ := List.mem_map.mp hy
    rw [← he]
    exact h x hx)

lemma consume_cost_conserved (sd : Date) (sq ra ru : ℚ) (sid : Option String)
    (lots : List Lot) : ∀ q : ℚ,
    sumTradeCostARS (consumeLots sd sq ra ru sid q lots).1
      + sumCostARS (consumeLots sd sq ra ru sid q lots).2 = sumCostARS lots ∧
    sumTradeCostUSD (consumeLots sd sq ra ru sid q lots).1
      + sumCostUSD (consumeLots sd sq ra ru sid q lots).2 = sumCostUSD lots := by
  induction lots with
  | nil =>
    intro q
    constructor <;> simp [consumeLots, sumTradeCostARS, sumTradeCostUSD, sumCostARS,
      sumCostUSD]
  | cons lot rest ih =>
    intro q
    by_cases hq : q ≤ 0
    · rw [consume_nonpos sd sq ra ru sid q (lot :: rest) hq]
      constructor <;> simp [sumTradeCostARS, sumTradeCostUSD]
    · rw [consume_cons sd sq ra ru sid q lot rest hq]
      obtain ⟨ih1, ih2⟩ := ih (q - min lot.quantity q)
      constructor
      · simp only [sumTradeCostARS, sumCostARS, List.map_cons, List.sum_cons] at ih1 ⊢
        linarith
      · simp only [sumTradeCostUSD, sumCostUSD, List.map_cons, List.sum_cons] at ih2 ⊢
        linarith

lemma record_buy_measure (rt : RateTables) (st st1 : PortfolioState)
    (details : TransactionData) (h : record_buy rt st details = .ok st1) :
    measureARS st1 = measureARS st + buyCostRecordedARS rt (.buy details) ∧
    measureUSD st1 = measureUSD st + buyCostRecordedUSD rt (.buy details) := by
  unfold record_buy at h
  cases hb : buyCosts rt details with
  | error e =>
    rw [hb] at h
    exact Except.noConfusion h
  | ok costs =>
    obtain ⟨cost_ars, cost_usd⟩ := costs
    rw [hb] at h
    injection h with h
    subst h
    constructor
    · simp [measureARS, sumCostARS, sumTradeCostARS, buyCostRecordedARS, hb, mkLot]
      ring
    · simp [measureUSD, sumCostUSD, sumTradeCostUSD, buyCostRecordedUSD, hb, mkLot]
      ring

lemma record_sell_core_shape (rt : RateTables) (st : PortfolioState)
    (details : TransactionData) (trades : List ClosedTrade) (combined : List Lot)
    (hc : record_sell_core rt st details = .ok (trades, combined)) :
    ∃ ra ru,
      trades = (consumeLots details.date details.quantity ra ru
        details.broker_transaction_id details.quantity
        (sortLotsByDate (st.open_positions.filter
          (fun l => l.ticker == details.ticker)))).1 ∧
      combined = st.open_positions.filter (fun l => !(l.ticker == details.ticker))
        ++ (consumeLots details.date details.quantity ra ru
          details.broker_transaction_id details.quantity
          (sortLotsByDate (st.open_positions.filter
            (fun l => l.ticker == details.ticker)))).2 := by
  simp only [record_sell_core] at hc
  split at hc
  · exact Except.noConfusion hc
  · split at hc
    · exact Except.noConfusion hc
    · split at hc
      · exact Except.noConfusion hc
      · injection hc with hc
        rw [Prod.mk.injEq] at hc
        exact ⟨_, _, hc.1.symm, hc.2.symm⟩

lemma record_sell_measure (rt : RateTables) (st st1 : PortfolioState)
    (details : TransactionData) (h : record_sell rt st details = .ok st1)
    (hdust : dustFreeStep rt st (.sell details) = true) :
    measureARS st1 = measureARS st ∧ measureUSD st1 = measureUSD st := by
  unfold record_sell at h
  cases hc : record_sell_core rt st details with
  | error e =>
    rw [hc] at h
    exact Except.noConfusion h
  | ok tc =>
    obtain ⟨trades, combined⟩ := tc
    rw [hc] at h
    injection h with h
    subst h
    have hdrop : ∀ l ∈ combined.filter (fun l => !keepLot l),
        l.total_cost_ars = 0 ∧ l.total_cost_usd = 0 := by
      simp only [dustFreeStep, sellDropped] at hdust
      rw [hc] at hdust
      intro l hl
      have h2 := List.all_eq_true.mp hdust l hl
      rw [Bool.and_eq_true, beq_iff_eq, beq_iff_eq] at h2
      exact h2
    obtain ⟨ra, ru, ht, hcomb⟩ := record_sell_core_shape rt st details trades combined hc
    obtain ⟨hc1, hc2⟩ := consume_cost_conserved details.date details.quantity ra ru
      details.broker_transaction_id
      (sortLotsByDate (st.open_positions.filter (fun l => l.ticker == details.ticker)))
      details.quantity
    constructor
    · have hdropA : ((combined.filter (fun l => !keepLot l)).map
          (fun l => l.total_cost_ars)).sum = 0 :=
        sum_map_zero _ _ (fun x hx => (hdrop x hx).1)
      have hkeepA := sum_filter_not_add keepLot (fun l => l.total_cost_ars) combined
      have hpermA : sumCostARS (sortLotsByDate (st.open_positions.filter
          (fun l => l.ticker == details.ticker))) = sumCostARS (st.open_positions.filter
          (fun l => l.ticker == details.ticker)) := by
        unfold sumCostARS sortLotsByDate
        exact List.Perm.sum_eq (List.Perm.map _ (List.perm_insertionSort lotDateLe _))
      have hpartA := sum_filter_not_add (fun l => l.ticker == details.ticker)
        (fun l => l.total_cost_ars) st.open_positions
      simp only [measureARS, sumCostARS, sumTradeCostARS] at hc1 hpermA hpartA ⊢
      rw [ht, hcomb]
      rw [hcomb] at hkeepA hdropA
      simp only [List.map_append, List.sum_append, List.filter_append] at hkeepA hdropA ⊢
      linarith
    · have hdropU : ((combined.filter (fun l => !keepLot l)).map
          (fun l => l.total_cost_usd)).sum = 0 :=
        sum_map_zero _ _ (fun x hx => (hdrop x hx).2)
      have hkeepU := sum_filter_not_add keepLot (fun l => l.total_cost_usd) combined
      have hpermU : sumCostUSD (sortLotsByDate (st.open_positions.filter
          (fun l => l.ticker == details.ticker))) = sumCostUSD (st.open_positions.filter
          (fun l => l.ticker == details.ticker)) := by
        unfold sumCostUSD sortLotsByDate
        exact List.Perm.sum_eq (List.Perm.map _ (List.perm_insertionSort lotDateLe _))
      have hpartU := sum_filter_not_add (fun l => l.ticker == details.ticker)
        (fun l => l.total_cost_usd) st.open_positions
      simp only [measureUSD, sumCostUSD, sumTradeCostUSD] at hc2 hpermU hpartU ⊢
      rw [ht, hcomb]
      rw [hcomb] at hkeepU hdropU
      simp only [List.map_append, List.sum_append, List.filter_append] at hkeepU hdropU ⊢
      linarith

lemma runOps_measure (rt : RateTables) : ∀ (ops : List Op) (st st' : PortfolioState),
    runOps rt st ops = .ok st' → dustFreeRun rt st ops = true →
    measureARS st' = measureARS st + totalBuyCostARS rt ops ∧
    measureUSD st' = measureUSD st + totalBuyCostUSD rt ops := by
  intro ops
  induction ops with
  | nil =>
    intro st st' h _
    injection h with h
    subst h
    simp [totalBuyCostARS, totalBuyCostUSD]
  | cons op rest ih =>
    intro st st' h hdust
    unfold runOps at h
    unfold dustFreeRun at hdust
    rw [Bool.and_eq_true] at hdust
    obtain ⟨hd1, hd2⟩ := hdust
    cases hs : stepOp rt st op with
    | error e =>
      rw [hs] at h
      exact Except.noConfusion h
    | ok st1 =>
      rw [hs] at h hd2
      obtain ⟨ih1, ih2⟩ := ih st1 st' h hd2
      have hstep : measureARS st1 = measureARS st + buyCostRecordedARS rt op ∧
          measureUSD st1 = measureUSD st + buyCostRecordedUSD rt op := by
        cases op with
        | buy d => exact record_buy_measure rt st st1 d hs
        | sell d =>
          obtain ⟨e1, e2⟩ := record_sell_measure rt st st1 d hs hd1
          exact ⟨by rw [e1, buyCostRecordedARS, add_zero],
            by rw [e2, buyCostRecordedUSD, add_zero]⟩
      obtain ⟨e1, e2⟩ := hstep
      constructor
      · rw [ih1, e1]
        simp only [totalBuyCostARS, List.map_cons, List.sum_cons]
        ring
      · rw [ih2, e2]
        simp only [totalBuyCostUSD, List.map_cons, List.sum_cons]
        ring

/-- C1 (amended): cost conservation up to the dust filter. For every run of
buy/sell operations that succeeds (each sell passing its quantity check, each
required rate resolving truthy), if every lot removed by the post-sell filter
`quantity > 0.001` carries exactly zero residual cost, then the sum of
`total_cost_ars` over all emitted ClosedTrades plus the remaining open lots
equals the initial measure plus the sum of the costs recorded by the BUY
operations — exactly, in both currencies. -/
theorem c1_cost_conservation_dustfree (rt : RateTables) (ops : List Op)
    (st st' : PortfolioState) (hrun : runOps rt st ops = .ok st')
    (hdust : dustFreeRun rt st ops = true) :
    measureARS st' = measureARS st + totalBuyCostARS rt ops ∧
    measureUSD st' = measureUSD st + totalBuyCostUSD rt ops :=
  runOps_measure rt ops st st' hrun hdust

/-- Witness for C1: buy 10 units at 100 ARS total (rate 2, so 50 USD), sell
all 10; the lot is fully drained (zero residual cost, so the dust filter
removes nothing of value) and the closed trade carries the whole cost. -/
theorem c1_cost_conservation_dustfree_witness :
    measureARS ⟨[], [⟨"T", 10, ⟨1, 2025, 1⟩, ⟨2, 2025, 1⟩, "ACCION", 100, 50, 200, 100,
        some "b1", some "s1"⟩]⟩ =
      measureARS ⟨[], []⟩ + totalBuyCostARS ⟨[⟨⟨0, 2025, 1⟩, 2⟩], []⟩
        [.buy ⟨⟨1, 2025, 1⟩, "T", "ACCION", none, 10, 10, "ARS", 0, 0, 0, none, some "b1"⟩,
         .sell ⟨⟨2, 2025, 1⟩, "T", "ACCION", none, 20, 10, "ARS", 0, 0, 0, none, some "s1"⟩] ∧
    measureUSD ⟨[], [⟨"T", 10, ⟨1, 2025, 1⟩, ⟨2, 2025, 1⟩, "ACCION", 100, 50, 200, 100,
        some "b1", some "s1"⟩]⟩ =
      measureUSD ⟨[], []⟩ + totalBuyCostUSD ⟨[⟨⟨0, 2025, 1⟩, 2⟩], []⟩
        [.buy ⟨⟨1, 2025, 1⟩, "T", "ACCION", none, 10, 10, "ARS", 0, 0, 0, none, some "b1"⟩,
         .sell ⟨⟨2, 2025, 1⟩, "T", "ACCION", none, 20, 10, "ARS", 0, 0, 0, none, some "s1"⟩] := by
  have hup : pyUpper "ACCION" = "ACCION" := by decide
  have hrun : runOps ⟨[⟨⟨0, 2025, 1⟩, 2⟩], []⟩ ⟨[], []⟩
      [.buy ⟨⟨1, 2025, 1⟩, "T", "ACCION", none, 10, 10, "ARS", 0, 0, 0, none, some "b1"⟩,
       .sell ⟨⟨2, 2025, 1⟩, "T", "ACCION", none, 20, 10, "ARS", 0, 0, 0, none, some "s1"⟩] =
      .ok ⟨[], [⟨"T", 10, ⟨1, 2025, 1⟩, ⟨2, 2025, 1⟩, "ACCION", 100, 50, 200, 100,
        some "b1", some "s1"⟩]⟩ := by
    norm_num [runOps, stepOp, record_buy, buyCosts, hup, grossAmount, equityCategories,
      get_rate, nearestPoint, sortPoints, truthyRate, mkLot, record_sell,
      record_sell_core, instrumentCategory, sortLotsByDate, List.insertionSort,
      List.orderedInsert, lotDateLe, sumQuantities, consumeLots, keepLot, dustThreshold,
      List.filter, distTo]
  have hdust : dustFreeRun ⟨[⟨⟨0, 2025, 1⟩, 2⟩], []⟩ ⟨[], []⟩
      [.buy ⟨⟨1, 2025, 1⟩, "T", "ACCION", none, 10, 10, "ARS", 0, 0, 0, none, some "b1"⟩,
       .sell ⟨⟨2, 2025, 1⟩, "T", "ACCION", none, 20, 10, "ARS", 0, 0, 0, none, some "s1"⟩]
      = true := by
    norm_num [dustFreeRun, dustFreeStep, sellDropped, runOps, stepOp, record_buy,
      buyCosts, hup, grossAmount, equityCategories, get_rate, nearestPoint, sortPoints,
      truthyRate, mkLot, record_sell, record_sell_core, instrumentCategory,
      sortLotsByDate, List.insertionSort, List.orderedInsert, lotDateLe, sumQuantities,
      consumeLots, keepLot, dustThreshold, List.filter, distTo]
  exact c1_cost_conservation_dustfree ⟨[⟨⟨0, 2025, 1⟩, 2⟩], []⟩
    [.buy ⟨⟨1, 2025, 1⟩, "T", "ACCION", none, 10, 10, "ARS", 0, 0, 0, none, some "b1"⟩,
     .sell ⟨⟨2, 2025, 1⟩, "T", "ACCION", none, 20, 10, "ARS", 0, 0, 0, none, some "s1"⟩]
    ⟨[], []⟩ _ hrun hdust

/-- C1 counterexample: the dust filter destroys cost. Buying 0.001 units at
price 1,000,000 (total cost 1000 ARS) and selling 0.0005 units leaves a lot of
0.0005 units carrying 500 ARS of cost; the filter `quantity > 0.001` silently
drops it, so closed-trade cost plus open-lot cost is 500, not the 1000 the
buys recorded — far beyond any floating-point tolerance. -/
theorem c1_cost_conservation_counterexample :
    (runOps ⟨[⟨⟨0, 2025, 1⟩, 1⟩], []⟩ ⟨[], []⟩
      [.buy ⟨⟨1, 2025, 1⟩, "T", "ACCION", none, 1000000, 1/1000, "ARS", 0, 0, 0,
        none, some "b1"⟩,
       .sell ⟨⟨2, 2025, 1⟩, "T", "ACCION", none, 0, 1/2000, "ARS", 0, 0, 0,
        none, some "s1"⟩]).map measureARS = .ok 500 ∧
    measureARS ⟨[], []⟩ = 0 ∧
    totalBuyCostARS ⟨[⟨⟨0, 2025, 1⟩, 1⟩], []⟩
      [.buy ⟨⟨1, 2025, 1⟩, "T", "ACCION", none, 1000000, 1/1000, "ARS", 0, 0, 0,
        none, some "b1"⟩,
       .sell ⟨⟨2, 2025, 1⟩, "T", "ACCION", none, 0, 1/2000, "ARS", 0, 0, 0,
        none, some "s1"⟩] = 1000 ∧
    (500 : ℚ) ≠ 0 + 1000 := by
  have hup : pyUpper "ACCION" = "ACCION" := by decide
  refine ⟨?_, by norm_num [measureARS, sumCostARS, sumTradeCostARS], ?_, by norm_num⟩
  · norm_num [runOps, stepOp, record_buy, buyCosts, hup, grossAmount, equityCategories,
      get_rate, nearestPoint, sortPoints, truthyRate, mkLot, record_sell,
      record_sell_core, instrumentCategory, sortLotsByDate, List.insertionSort,
      List.orderedInsert, lotDateLe, sumQuantities, consumeLots, keepLot, dustThreshold,
      List.filter, distTo, Except.map, measureARS, sumCostARS, sumTradeCostARS]
  · norm_num [totalBuyCostARS, buyCostRecordedARS, buyCosts, hup, grossAmount,
      equityCategories, get_rate, nearestPoint, sortPoints, truthyRate,
      instrumentCategory, distTo]

/-! ## Helper lemmas: the replay guard of the reconciliation pipeline -/

lemma mem_processedIds_open {st : RecState} {l : RecLot} (hl : l ∈ st.open_positions) :
    l.broker_id ∈ processedIds st :=
  List.mem_append_left _ (List.mem_append_left _ (List.mem_map_of_mem _ hl))

lemma mem_processedIds_buy {st : RecState} {t : RecTrade} (ht : t ∈ st.closed_trades) :
    t.buy_broker_transaction_id ∈ processedIds st :=
  List.mem_append_left _ (List.mem_append_right _ (List.mem_map_of_mem _ ht))

lemma mem_processedIds_sell {st : RecState} {t : RecTrade} (ht : t ∈ st.closed_trades) :
    t.sell_broker_transaction_id ∈ processedIds st :=
  List.mem_append_right _ (List.mem_map_of_mem _ ht)

lemma processedIds_cases {st : RecState} {s : String} (hs : s ∈ processedIds st) :
    (∃ l ∈ st.open_positions, s = l.broker_id) ∨
    (∃ t ∈ st.closed_trades,
      s = t.buy_broker_transaction_id ∨ s = t.sell_broker_transaction_id) := by
  unfold processedIds at hs
  rcases List.mem_append.mp hs with h1 | h2
  · rcases List.mem_append.mp h1 with ho | hb
    · obtain ⟨l, hl, he⟩ := List.mem_map.mp ho
      exact Or.inl ⟨l, hl, he.symm⟩
    · obtain ⟨t, ht, he⟩ := List.mem_map.mp hb
      exact Or.inr ⟨t, ht, Or.inl he.symm⟩
  · obtain ⟨t, ht, he⟩ := List.mem_map.mp h2
    exact Or.inr ⟨t, ht, Or.inr he.symm⟩

lemma consumeRec_nonpos (tx : RTx) (ra : ℚ) (ru : Option ℚ) (q : ℚ)
    (lots : List RecLot) (hq : q ≤ 0) :
    consumeRecLots tx ra ru q lots = ([], lots) := by
  cases lots with
  | nil => rfl
  | cons lot rest => rw [consumeRecLots, if_pos hq]

lemma consumeRec_mem (tx : RTx) (ra : ℚ) (ru : Option ℚ) (lots : List RecLot) :
    ∀ (q : ℚ) (l : RecLot), l ∈ lots →
      (∃ t ∈ (consumeRecLots tx ra ru q lots).1,
        t.buy_broker_transaction_id = l.broker_id ∧
        t.sell_broker_transaction_id = tx.broker_id) ∨
      l ∈ (consumeRecLots tx ra ru q lots).2 := by
  induction lots with
  | nil =>
    intro q l hl
    exact absurd hl (List.not_mem_nil l)
  | cons lot rest ih =>
    intro q l hl
    by_cases hq : q ≤ 0
    · rw [consumeRec_nonpos tx ra ru q (lot :: rest) hq]
      exact Or.inr hl
    · rw [consumeRecLots, if_neg hq]
      rcases List.mem_cons.mp hl with he | hm
      · subst he
        exact Or.inl ⟨_, List.mem_cons_self _ _, rfl, rfl⟩
      · rcases ih (q - min lot.quantity q) l hm with ⟨t, htm, hid⟩ | hr
        · exact Or.inl ⟨t, List.mem_cons_of_mem _ htm, hid⟩
        · exact Or.inr (List.mem_cons_of_mem _ hr)

lemma apply_sell_shape (rates : RateTables) (tx : RTx) (ops : List RecLot)
    (trades : List RecTrade) (positions : List RecLot)
    (h : apply_sell_transaction rates tx ops = some (trades, positions)) :
    ∃ ra ru,
      trades = (consumeRecLots tx ra ru tx.quantity
        (sortRecLotsByDate (ops.filter (fun l => l.ticker == tx.ticker)))).1 ∧
      positions = ops.filter (fun l => !(l.ticker == tx.ticker)) ++
        (consumeRecLots tx ra ru tx.quantity
          (sortRecLotsByDate (ops.filter (fun l => l.ticker == tx.ticker)))).2 := by
  simp only [apply_sell_transaction] at h
  split at h
  · exact Option.noConfusion h
  · injection h with h
    rw [Prod.mk.injEq] at h
    exact ⟨_, _, h.1.symm, h.2.symm⟩

lemma consumeRec_head_trade (tx : RTx) (ra : ℚ) (ru : Option ℚ) (q : ℚ)
    (lot : RecLot) (rest : List RecLot) (hq : 0 < q) :
    ∃ t ∈ (consumeRecLots tx ra ru q (lot :: rest)).1,
      t.sell_broker_transaction_id = tx.broker_id := by
  rw [consumeRecLots, if_neg (not_le.mpr hq)]
  exact ⟨_, List.mem_cons_self _ _, rfl⟩

lemma applyTx_sell_props (rates : RateTables) (st st1 : RecState) (tx : RTx)
    (hop : tx.op_type = "SELL") (h : applyTx rates st tx = some st1)
    (hgood : GoodState st) :
    GoodState st1 ∧
    (∀ s ∈ processedIds st, s ∈ processedIds st1) ∧
    (0 < tx.quantity → (∃ l ∈ st.open_positions, l.ticker = tx.ticker) →
      tx.broker_id ∈ processedIds st1) := by
  unfold applyTx at h
  rw [hop, if_neg (by decide : ¬ ("SELL" : String) = "BUY"), if_pos rfl] at h
  cases ha : apply_sell_transaction rates tx st.open_positions with
  | none =>
    rw [ha] at h
    exact Option.noConfusion h
  | some tp =>
    obtain ⟨trades, positions⟩ := tp
    rw [ha] at h
    injection h with h
    subst h
    obtain ⟨ra, ru, ht, hpos⟩ := apply_sell_shape rates tx st.open_positions trades
      positions ha
    have hms : ∀ l : RecLot, l ∈ st.open_positions → (l.ticker == tx.ticker) = true →
        l ∈ sortRecLotsByDate (st.open_positions.filter
          (fun l2 => l2.ticker == tx.ticker)) := by
      intro l hl htk
      unfold sortRecLotsByDate
      rw [List.mem_insertionSort]
      exact List.mem_filter.mpr ⟨hl, htk⟩
    refine ⟨?_, ?_, ?_⟩
    · intro l hl
      have hf := List.mem_filter.mp hl
      have := hf.2
      rw [keepRecLot, decide_eq_true_eq] at this
      exact this
    · intro s hs
      rcases processedIds_cases hs with ⟨l, hl, he⟩ | ⟨t, htr, he⟩
      · subst he
        by_cases htk : (l.ticker == tx.ticker) = true
        · rcases consumeRec_mem tx ra ru _ tx.quantity l (hms l hl htk) with
            ⟨t, htm, hid, _⟩ | hr
          · rw [← ht] at htm
            rw [← hid]
            exact mem_processedIds_buy (List.mem_append_right _ htm)
          · have hlp : l ∈ positions := by
              rw [hpos]
              exact List.mem_append_right _ hr
            have hk : keepRecLot l = true := by
              rw [keepRecLot, decide_eq_true_eq]
              exact hgood l hl
            exact mem_processedIds_open (List.mem_filter.mpr ⟨hlp, hk⟩)
        · have hlp : l ∈ positions := by
            rw [hpos]
            refine List.mem_append_left _ (List.mem_filter.mpr ⟨hl, ?_⟩)
            simp only [Bool.not_eq_true] at htk
            simp [htk]
          have hk : keepRecLot l = true := by
            rw [keepRecLot, decide_eq_true_eq]
            exact hgood l hl
          exact mem_processedIds_open (List.mem_filter.mpr ⟨hlp, hk⟩)
      · rcases he with he | he <;> subst he
        · exact mem_processedIds_buy (List.mem_append_left _ htr)
        · exact mem_processedIds_sell (List.mem_append_left _ htr)
    · intro hq ⟨l, hl, htk⟩
      have hmem := hms l hl (beq_iff_eq.mpr htk)
      cases hsort : sortRecLotsByDate (st.open_positions.filter
          (fun l2 => l2.ticker == tx.ticker)) with
      | nil =>
        rw [hsort] at hmem
        exact absurd hmem (List.not_mem_nil l)
      | cons p ps =>
        obtain ⟨t, htm, hid⟩ := consumeRec_head_trade tx ra ru tx.quantity p ps hq
        rw [← hsort] at htm
        rw [← ht] at htm
        rw [← hid]
        exact mem_processedIds_sell (List.mem_append_right _ htm)

lemma applyTx_buy_props (rates : RateTables) (st st1 : RecState) (tx : RTx)
    (hop : tx.op_type = "BUY") (h : applyTx rates st tx = some st1) :
    (∀ s ∈ processedIds st, s ∈ processedIds st1) ∧
    tx.broker_id ∈ processedIds st1 ∧
    (∀ l ∈ st1.open_positions, l ∈ st.open_positions ∨ l.quantity = tx.quantity) := by
  unfold applyTx at h
  rw [hop, if_pos rfl] at h
  injection h with h
  subst h
  unfold applyRecBuy
  refine ⟨?_, ?_, ?_⟩
  · intro s hs
    rcases processedIds_cases hs with ⟨l, hl, he⟩ | ⟨t, htr, he⟩
    · subst he
      exact mem_processedIds_open (List.mem_append_left _ hl)
    · rcases he with he | he <;> subst he
      · exact mem_processedIds_buy htr
      · exact mem_processedIds_sell htr
  · unfold processedIds
    refine List.mem_append_left _ (List.mem_append_left _ ?_)
    rw [List.map_append]
    exact List.mem_append_right _ (by simp)
  · intro l hl
    rcases List.mem_append.mp hl with ho | hn
    · exact Or.inl ho
    · rw [List.mem_singleton] at hn
      subst hn
      exact Or.inr rfl

lemma applyAll_ids (rates : RateTables) : ∀ (txs : List RTx) (st st' : RecState),
    applyAll rates st txs = some st' →
    GoodState st →
    (∀ tx ∈ txs, tx.op_type = "BUY" → dustThreshold < tx.quantity) →
    sellsMatch rates st txs = true →
    GoodState st' ∧ (∀ s ∈ processedIds st, s ∈ processedIds st') ∧
      (∀ tx ∈ txs, validOp tx = true → tx.broker_id ∈ processedIds st') := by
  intro txs
  induction txs with
  | nil =>
    intro st st' h hgood _ _
    injection h with h
    subst h
    exact ⟨hgood, fun s hs => hs, fun tx htx => absurd htx (List.not_mem_nil tx)⟩
  | cons tx rest ih =>
    intro st st' h hgood hbuys hsm
    unfold applyAll at h
    unfold sellsMatch at hsm
    rw [Bool.and_eq_true] at hsm
    obtain ⟨hsm1, hsm2⟩ := hsm
    cases ha : applyTx rates st tx with
    | none =>
      rw [ha] at h
      exact Option.noConfusion h
    | some st1 =>
      rw [ha] at h hsm2
      have hstep : GoodState st1 ∧ (∀ s ∈ processedIds st, s ∈ processedIds st1) ∧
          (validOp tx = true → tx.broker_id ∈ processedIds st1) := by
        by_cases hb : tx.op_type = "BUY"
        · obtain ⟨p1, p2, p3⟩ := applyTx_buy_props rates st st1 tx hb ha
          refine ⟨?_, p1, fun _ => p2⟩
          intro l hl
          rcases p3 l hl with ho | hq
          · exact hgood l ho
          · rw [hq]
            exact hbuys tx (List.mem_cons_self tx rest) hb
        · by_cases hsl : tx.op_type = "SELL"
          · rw [if_pos hsl] at hsm1
            rw [Bool.and_eq_true, decide_eq_true_eq, List.any_eq_true] at hsm1
            obtain ⟨hq, lm, hlm, htk⟩ := hsm1
            obtain ⟨p1, p2, p3⟩ := applyTx_sell_props rates st st1 tx hsl ha hgood
            exact ⟨p1, p2, fun _ => p3 hq ⟨lm, hlm, beq_iff_eq.mp htk⟩⟩
          · have hst : st1 = st := by
              unfold applyTx at ha
              rw [if_neg hb, if_neg hsl] at ha
              injection ha with ha
              exact ha.symm
            subst hst
            refine ⟨hgood, fun s hs => hs, ?_⟩
            intro hv
            rw [validOp, Bool.or_eq_true, beq_iff_eq, beq_iff_eq] at hv
            rcases hv with hv | hv
            · exact absurd hv hb
            · exact absurd hv hsl
      obtain ⟨g1, g2, g3⟩ := hstep
      obtain ⟨q1, q2, q3⟩ := ih st1 st' h g1
        (fun tx2 htx2 => hbuys tx2 (List.mem_cons_of_mem tx htx2)) hsm2
      refine ⟨q1, fun s hs => q2 s (g2 s hs), ?_⟩
      intro tx2 htx2 hv
      rcases List.mem_cons.mp htx2 with he | hm
      · subst he
        exact q2 _ (g3 hv)
      · exact q3 tx2 hm hv

lemma filterNew_props : ∀ (processed : List String) (txs : List RTx) (tx : RTx),
    tx ∈ filterNew processed txs → validOp tx = true ∧ tx ∈ txs := by
  intro processed txs
  induction txs generalizing processed with
  | nil =>
    intro tx h
    exact absurd h (List.not_mem_nil tx)
  | cons t rest ih =>
    intro tx h
    unfold filterNew at h
    split_ifs at h with hc
    · obtain ⟨h1, h2⟩ := ih processed tx h
      exact ⟨h1, List.mem_cons_of_mem t h2⟩
    · rcases List.mem_cons.mp h with he | hm
      · subst he
        push_neg at hc
        exact ⟨by simpa using hc.2, List.mem_cons_self tx rest⟩
      · obtain ⟨h1, h2⟩ := ih (t.broker_id :: processed) tx hm
        exact ⟨h1, List.mem_cons_of_mem t h2⟩

lemma filterNew_covers : ∀ (txs : List RTx) (processed : List String) (tx : RTx),
    tx ∈ txs → validOp tx = true →
    tx.broker_id ∈ processed ∨
      ∃ tx2 ∈ filterNew processed txs, tx2.broker_id = tx.broker_id := by
  intro txs
  induction txs with
  | nil =>
    intro processed tx h _
    exact absurd h (List.not_mem_nil tx)
  | cons t rest ih =>
    intro processed tx htx hv
    unfold filterNew
    rcases List.mem_cons.mp htx with he | hm
    · subst he
      by_cases hc : tx.broker_id ∈ processed ∨ ¬ validOp tx
      · rcases hc with hc | hc
        · exact Or.inl hc
        · exact absurd (by simpa using hv) hc
      · rw [if_neg hc]
        exact Or.inr ⟨tx, List.mem_cons_self _ _, rfl⟩
    · by_cases hc : t.broker_id ∈ processed ∨ ¬ validOp t
      · rw [if_pos hc]
        exact ih processed tx hm hv
      · rw [if_neg hc]
        rcases ih (t.broker_id :: processed) tx hm hv with hin | ⟨tx2, h2, he⟩
        · rcases List.mem_cons.mp hin with he | hp
          · exact Or.inr ⟨t, List.mem_cons_self _ _, he.symm⟩
          · exact Or.inl hp
        · exact Or.inr ⟨tx2, List.mem_cons_of_mem _ h2, he⟩

lemma filterNew_eq_nil (processed : List String) : ∀ txs : List RTx,
    (∀ tx ∈ txs, validOp tx = true → tx.broker_id ∈ processed) →
    filterNew processed txs = [] := by
  intro txs
  induction txs with
  | nil =>
    intro _
    rfl
  | cons t rest ih =>
    intro hall
    unfold filterNew
    have hc : t.broker_id ∈ processed ∨ ¬ validOp t := by
      by_cases hv : validOp t = true
      · exact Or.inl (hall t (List.mem_cons_self t rest) hv)
      · exact Or.inr (by simpa using hv)
    rw [if_pos hc]
    exact ih (fun tx htx hv => hall tx (List.mem_cons_of_mem t htx) hv)

/-- C5 (amended): guarded idempotent replay. If one reconciliation run
succeeds and (i) every accepted buy's quantity exceeds the 0.001 dust
threshold, and (ii) every accepted sell is applied with positive quantity
against at least one open lot of its ticker (so each applied transaction's id
ends up persisted in an open lot or a ClosedTrade), then feeding the identical
transaction list to a second run filters everything out and returns the state
unchanged. -/
theorem c5_idempotent_replay_guarded (rates : RateTables) (st st' : RecState)
    (txs : List RTx)
    (hrun : reconcile rates st txs = some st')
    (hgood : GoodState st)
    (hbuys : ∀ tx ∈ sortTxByDate (filterNew (processedIds st) txs),
      tx.op_type = "BUY" → dustThreshold < tx.quantity)
    (hsells : sellsMatch rates st (sortTxByDate (filterNew (processedIds st) txs)) = true) :
    reconcile rates st' txs = some st' := by
  unfold reconcile at hrun
  obtain ⟨g1, g2, g3⟩ := applyAll_ids rates (sortTxByDate (filterNew (processedIds st) txs))
    st st' hrun hgood hbuys hsells
  have hall : ∀ tx ∈ txs, validOp tx = true → tx.broker_id ∈ processedIds st' := by
    intro tx htx hv
    rcases filterNew_covers txs (processedIds st) tx htx hv with hin | ⟨tx2, h2, he⟩
    · exact g2 _ hin
    · have hmem : tx2 ∈ sortTxByDate (filterNew (processedIds st) txs) := by
        unfold sortTxByDate
        rw [List.mem_insertionSort]
        exact h2
      have hv2 : validOp tx2 = true := (filterNew_props _ _ _ h2).1
      rw [← he]
      exact g3 tx2 hmem hv2
  unfold reconcile
  rw [filterNew_eq_nil (processedIds st') txs hall]
  rfl

/-- C5 counterexample: replay is not idempotent when a sell matches no open
lot. The batch holds a sell (dated t = 1, no lots yet, so it persists no id)
and a later buy of the same ticker. The first run leaves one open lot and no
trades; the second run skips only the buy, and the replayed sell now consumes
the lot created by the first run, producing a different state. -/
theorem c5_idempotent_replay_counterexample :
    reconcile ⟨[], []⟩ ⟨[], []⟩
      [⟨"s1", ⟨1, 2025, 1⟩, "SELL", "T", "ACCION", 1, 5, "ARS", 5⟩,
       ⟨"b1", ⟨2, 2025, 1⟩, "BUY", "T", "ACCION", 5, 10, "ARS", 50⟩] =
      some ⟨[⟨"b1", ⟨2, 2025, 1⟩, "T", "ACCION", 5, some 50, none⟩], []⟩ ∧
    reconcile ⟨[], []⟩ ⟨[⟨"b1", ⟨2, 2025, 1⟩, "T", "ACCION", 5, some 50, none⟩], []⟩
      [⟨"s1", ⟨1, 2025, 1⟩, "SELL", "T", "ACCION", 1, 5, "ARS", 5⟩,
       ⟨"b1", ⟨2, 2025, 1⟩, "BUY", "T", "ACCION", 5, 10, "ARS", 50⟩] =
      some ⟨[⟨"b1", ⟨2, 2025, 1⟩, "T", "ACCION", 4, some 40, none⟩],
        [⟨"T", 1, ⟨2, 2025, 1⟩, ⟨1, 2025, 1⟩, 10, 0, 5, 0, "b1", "s1"⟩]⟩ ∧
    (⟨[⟨"b1", ⟨2, 2025, 1⟩, "T", "ACCION", 4, some 40, none⟩],
        [⟨"T", 1, ⟨2, 2025, 1⟩, ⟨1, 2025, 1⟩, 10, 0, 5, 0, "b1", "s1"⟩]⟩ : RecState) ≠
      ⟨[⟨"b1", ⟨2, 2025, 1⟩, "T", "ACCION", 5, some 50, none⟩], []⟩ := by
  have hnb : ¬ ("SELL" : String) = "BUY" := by decide
  refine ⟨?_, ?_, by decide⟩ <;>
    norm_num [reconcile, processedIds, filterNew, validOp, sortTxByDate,
      List.insertionSort, List.orderedInsert, txDateLe, applyAll, applyTx, applyRecBuy,
      apply_sell_transaction, get_rate, nearestPoint, sortPoints, truthyRate,
      consumeRecLots, shrinkCost, sortRecLotsByDate, recLotDateLe, keepRecLot,
      dustThreshold, List.filter, distTo, hnb]

/-- Witness for C5: a buy of 5 units followed by a sell of 2 units of the same
ticker; every accepted buy clears the dust threshold and the sell matches an
open lot, so replaying the same two transactions against the resulting state
is a no-op. -/
theorem c5_idempotent_replay_witness :
    reconcile ⟨[], []⟩
      ⟨[⟨"b1", ⟨1, 2025, 1⟩, "T", "ACCION", 3, some 30, none⟩],
       [⟨"T", 2, ⟨1, 2025, 1⟩, ⟨2, 2025, 1⟩, 20, 0, 20, 0, "b1", "s1"⟩]⟩
      [⟨"b1", ⟨1, 2025, 1⟩, "BUY", "T", "ACCION", 5, 10, "ARS", 50⟩,
       ⟨"s1", ⟨2, 2025, 1⟩, "SELL", "T", "ACCION", 2, 10, "ARS", 20⟩] =
      some ⟨[⟨"b1", ⟨1, 2025, 1⟩, "T", "ACCION", 3, some 30, none⟩],
        [⟨"T", 2, ⟨1, 2025, 1⟩, ⟨2, 2025, 1⟩, 20, 0, 20, 0, "b1", "s1"⟩]⟩ := by
  have hnb : ¬ ("SELL" : String) = "BUY" := by decide
  have hbs : ¬ ("BUY" : String) = "SELL" := by decide
  refine c5_idempotent_replay_guarded ⟨[], []⟩ ⟨[], []⟩
    ⟨[⟨"b1", ⟨1, 2025, 1⟩, "T", "ACCION", 3, some 30, none⟩],
     [⟨"T", 2, ⟨1, 2025, 1⟩, ⟨2, 2025, 1⟩, 20, 0, 20, 0, "b1", "s1"⟩]⟩
    [⟨"b1", ⟨1, 2025, 1⟩, "BUY", "T", "ACCION", 5, 10, "ARS", 50⟩,
     ⟨"s1", ⟨2, 2025, 1⟩, "SELL", "T", "ACCION", 2, 10, "ARS", 20⟩]
    ?_ (by simp [GoodState]) ?_ ?_ <;>
    norm_num [reconcile, processedIds, filterNew, validOp, sortTxByDate,
      List.insertionSort, List.orderedInsert, txDateLe, applyAll, applyTx, applyRecBuy,
      apply_sell_transaction, get_rate, nearestPoint, sortPoints, truthyRate,
      consumeRecLots, shrinkCost, sortRecLotsByDate, recLotDateLe, keepRecLot,
      dustThreshold, List.filter, distTo, hnb, hbs, sellsMatch]
